import Mathlib

/-!
Verification of the SimJS discrete-event simulation kernel.

The definitions below are a shallow embedding of the TypeScript sources:
`src/core/Environment.ts` (scheduler), `src/core/Heap.ts` (binary min-heap),
`src/events/Event.ts` (events and conditions), `src/events/Process.ts`
(coroutine processes), `src/events/Timeout.ts`, `src/events/Initialize.ts`,
`src/errors/*` and `src/resources/*` (counting resource with FIFO queues).
JavaScript numbers are modelled as `Int` (the kernel only ever adds,
subtracts and compares them), JS `null`-able callback lists as
`Option (List Callback)`, and thrown exceptions as an out-of-band
`Option SimErr` component threaded next to the state.
-/

namespace SimJS

/-- Priority levels for scheduling events (`src/types.ts`). -/
inductive Priority where
  | NORMAL
  | URGENT
deriving DecidableEq, Repr

/-- Queue item structure for the event scheduler (`src/types.ts`).
`priority` stores the numeric class computed in `Environment.schedule`
(`'URGENT' ? 0 : 1`); `event` is the identity of the scheduled event. -/
structure QueueItem where
  time : Int
  priority : Int
  eid : Nat
  event : Nat
deriving DecidableEq, Repr, Inhabited

/-- The heap comparator installed by `Environment`'s constructor:
`(a, b) => { if (a.time !== b.time) return a.time - b.time;
if (a.priority !== b.priority) return a.priority - b.priority;
return a.eid - b.eid; }`. -/
def cmpQI (a b : QueueItem) : Int :=
  if a.time ≠ b.time then a.time - b.time
  else if a.priority ≠ b.priority then a.priority - b.priority
  else (a.eid : Int) - (b.eid : Int)

/-- Lexicographic strict order on `(time, priority, eid)` as the spec
describes the queue ordering. -/
def lexLt (a b : QueueItem) : Prop :=
  a.time < b.time ∨
    (a.time = b.time ∧ (a.priority < b.priority ∨
      (a.priority = b.priority ∧ a.eid < b.eid)))

instance (a b : QueueItem) : Decidable (lexLt a b) := by
  unfold lexLt; infer_instance

theorem cmpQI_neg_iff_lexLt (a b : QueueItem) : cmpQI a b < 0 ↔ lexLt a b := by
  unfold cmpQI lexLt
  by_cases h1 : a.time = b.time <;> by_cases h2 : a.priority = b.priority <;>
    simp [h1, h2]

theorem cmpQI_anti (a b : QueueItem) : cmpQI a b = -cmpQI b a := by
  unfold cmpQI
  by_cases h1 : a.time = b.time <;> by_cases h2 : a.priority = b.priority <;>
    simp [h1, h2, Ne.symm]

theorem cmpQI_self (a : QueueItem) : cmpQI a a = 0 := by
  unfold cmpQI; simp

theorem cmpQI_trans {a b c : QueueItem} (hab : cmpQI a b ≤ 0) (hbc : cmpQI b c ≤ 0) :
    cmpQI a c ≤ 0 := by
  unfold cmpQI at *
  by_cases h1 : a.time = b.time <;> by_cases h2 : b.time = c.time <;>
    by_cases h3 : a.priority = b.priority <;> by_cases h4 : b.priority = c.priority <;>
      simp_all <;> omega

/-! ## The binary min-heap of `src/core/Heap.ts`

The source stores items in a plain JS array and manipulates them by index;
we model the array as a `List` and index accesses (`this.items[i]`, always
guarded in bounds by the source) with `nth`.  The source's sift loops cache
`const item = this.items[idx]` and write `items[parentIdx] = item;
items[idx] = parent`; since the cached `item` always equals the current
`items[idx]`, each loop iteration is exactly a swap of the two positions. -/

variable {T : Type} [Inhabited T]

/-- `this.items[i]` (with the JS out-of-bounds `undefined` as `default`;
every access in the source is guarded to be in bounds). -/
def nth (l : List T) (i : Nat) : T := l.getD i default

/-- Exchange the items at positions `i` and `j`. -/
def swapL (l : List T) (i j : Nat) : List T := (l.set i (nth l j)).set j (nth l i)

/-- Parent index in the implicit binary tree: `Math.floor((idx - 1) / 2)`. -/
def parentIdx (i : Nat) : Nat := (i - 1) / 2

/-- `Heap._heapifyUp`, parameterized by the loop counter `idx`
(the source starts it at `size() - 1`): while `idx > 0` and
`compare(item, parent) < 0`, swap with the parent and continue.  `fuel`
bounds the loop: since `idx` strictly decreases, any `fuel > idx` runs the
source loop to completion (`heapPush` passes the array length). -/
def heapifyUpGo (cmp : T → T → Int) : Nat → List T → Nat → List T
  | 0, l, _ => l
  | fuel + 1, l, idx =>
    if idx = 0 then l
    else
      let p := parentIdx idx
      if 0 ≤ cmp (nth l idx) (nth l p) then l
      else heapifyUpGo cmp fuel (swapL l idx p) p

/-- `Heap.push`: append the item, then sift it up from the last position. -/
def heapPush (cmp : T → T → Int) (l : List T) (x : T) : List T :=
  heapifyUpGo cmp (l ++ [x]).length (l ++ [x]) ((l ++ [x]).length - 1)

/-- One round of `Heap._heapifyDown`'s `smallest` computation: compare the
left child with `items[idx]`, then the right child with the smaller of the
two, exactly as the source does. -/
def smallestIdx (cmp : T → T → Int) (l : List T) (idx : Nat) : Nat :=
  let len := l.length
  let li := 2 * idx + 1
  let ri := 2 * idx + 2
  let s1 := if li < len ∧ cmp (nth l li) (nth l idx) < 0 then li else idx
  if ri < len ∧ cmp (nth l ri) (nth l s1) < 0 then ri else s1

theorem smallestIdx_cases (cmp : T → T → Int) (l : List T) (idx : Nat) :
    smallestIdx cmp l idx = idx ∨
      (idx < smallestIdx cmp l idx ∧ smallestIdx cmp l idx < l.length) := by
  simp only [smallestIdx]
  by_cases h1 : 2 * idx + 1 < l.length ∧ cmp (nth l (2 * idx + 1)) (nth l idx) < 0
  · simp only [if_pos h1]
    by_cases h2 : 2 * idx + 2 < l.length ∧ cmp (nth l (2 * idx + 2)) (nth l (2 * idx + 1)) < 0
    · simp only [if_pos h2]
      exact Or.inr ⟨by omega, h2.1⟩
    · simp only [if_neg h2]
      exact Or.inr ⟨by omega, h1.1⟩
  · simp only [if_neg h1]
    by_cases h2 : 2 * idx + 2 < l.length ∧ cmp (nth l (2 * idx + 2)) (nth l idx) < 0
    · simp only [if_pos h2]
      exact Or.inr ⟨by omega, h2.1⟩
    · simp only [if_neg h2]
      exact Or.inl trivial

/-- `Heap._heapifyDown`, parameterized by the loop counter `idx`
(the source starts it at `0`): find the smallest of the node and its
children; stop if it is the node itself, else swap down and continue.
`fuel` bounds the loop: `idx` strictly increases below the length, so any
`fuel ≥ length - idx` runs the source loop to completion (`heapPop` passes
the array length). -/
def heapifyDownGo (cmp : T → T → Int) : Nat → List T → Nat → List T
  | 0, l, _ => l
  | fuel + 1, l, idx =>
    if smallestIdx cmp l idx = idx then l
    else heapifyDownGo cmp fuel (swapL l idx (smallestIdx cmp l idx)) (smallestIdx cmp l idx)

/-- `Heap.pop`: return the root; move the last item to the root and sift it
down (only when items remain). -/
def heapPop (cmp : T → T → Int) (l : List T) : Option (T × List T) :=
  if l.length = 0 then none
  else
    let top := nth l 0
    let bottom := nth l (l.length - 1)
    let rest := l.dropLast
    if 0 < rest.length then
      some (top, heapifyDownGo cmp (rest.set 0 bottom).length (rest.set 0 bottom) 0)
    else some (top, rest)

/-- `Heap.peek`. -/
def heapPeek (l : List T) : Option T := l.head?

/-- The binary-heap shape invariant: every non-root position is no smaller
than its parent under the comparator. -/
def IsHeapList (cmp : T → T → Int) (l : List T) : Prop :=
  ∀ i, 0 < i → i < l.length → cmp (nth l (parentIdx i)) (nth l i) ≤ 0

theorem nth_eq_getElem (l : List T) (i : Nat) (h : i < l.length) : nth l i = l[i] := by
  simp [nth, List.getD_eq_getElem?_getD, List.getElem?_eq_getElem h]

theorem nth_mem (l : List T) (i : Nat) (h : i < l.length) : nth l i ∈ l := by
  rw [nth_eq_getElem l i h]
  exact List.getElem_mem h

@[simp] theorem length_swapL (l : List T) (i j : Nat) : (swapL l i j).length = l.length := by
  simp [swapL]

theorem set_nth_self : ∀ (l : List T) (i : Nat), i < l.length → l.set i (nth l i) = l
  | _ :: _, 0, _ => by simp [nth]
  | a :: t, n + 1, h => by
    have ih := set_nth_self t n (by simpa using h)
    simp only [nth, List.getD_cons_succ, List.set_cons_succ] at *
    rw [ih]

theorem nth_swapL_fst (l : List T) (i j : Nat) (hi : i < l.length) (hj : j < l.length) :
    nth (swapL l i j) i = nth l j := by
  by_cases hij : i = j
  · subst hij
    rw [swapL, List.set_set, set_nth_self l i hi]
  · simp only [swapL]
    rw [nth_eq_getElem _ i (by simp [hi]), nth_eq_getElem l j hj]
    rw [List.getElem_set_ne (by omega)]
    simp [List.getElem_set_self, hi]

theorem nth_swapL_snd (l : List T) (i j : Nat) (hi : i < l.length) (hj : j < l.length) :
    nth (swapL l i j) j = nth l i := by
  simp only [swapL]
  rw [nth_eq_getElem _ j (by simp [hj]), nth_eq_getElem l i hi]
  rw [List.getElem_set_self]

theorem nth_swapL_other (l : List T) (i j k : Nat) (hki : k ≠ i) (hkj : k ≠ j) :
    nth (swapL l i j) k = nth l k := by
  simp only [swapL, nth, List.getD_eq_getElem?_getD]
  rw [List.getElem?_set_ne (Ne.symm hkj), List.getElem?_set_ne (Ne.symm hki)]

theorem perm_nth_cons_set (a : T) :
    ∀ (l : List T) (m : Nat), m < l.length → List.Perm ((nth l m) :: (l.set m a)) (a :: l)
  | b :: t, 0, _ => by
    simpa [nth] using List.Perm.swap a b t
  | b :: t, n + 1, h => by
    have ih := perm_nth_cons_set a t n (by simpa using h)
    have h1 : nth (b :: t) (n + 1) = nth t n := by simp [nth]
    rw [h1, List.set_cons_succ]
    exact ((List.Perm.swap b (nth t n) (t.set n a)).trans
      (List.Perm.cons b ih)).trans (List.Perm.swap a b t)

theorem swapL_perm (l : List T) (i j : Nat) (hi : i < l.length) (hj : j < l.length) :
    List.Perm (swapL l i j) l := by
  by_cases hij : i = j
  · subst hij
    rw [swapL, List.set_set, set_nth_self l i hi]
  · have h1 : List.Perm (nth (l.set i (nth l j)) j :: swapL l i j)
        ((nth l i) :: (l.set i (nth l j))) := by
      simpa [swapL] using perm_nth_cons_set (nth l i) (l.set i (nth l j)) j (by simpa using hj)
    have h2 : nth (l.set i (nth l j)) j = nth l j := by
      simp [nth, List.getD_eq_getElem?_getD, List.getElem?_set_ne (Ne.symm (by omega : j ≠ i))]
    rw [h2] at h1
    have h3 : List.Perm ((nth l i) :: (l.set i (nth l j))) (nth l j :: l) :=
      perm_nth_cons_set (nth l j) l i hi
    exact (List.perm_cons (nth l j)).mp (h1.trans h3)

theorem heapifyUpGo_perm (cmp : T → T → Int) :
    ∀ (fuel : Nat) (l : List T) (idx : Nat), idx < l.length →
      List.Perm (heapifyUpGo cmp fuel l idx) l
  | 0, l, _, _ => List.Perm.refl l
  | fuel + 1, l, idx, h => by
    unfold heapifyUpGo
    dsimp only
    by_cases h0 : idx = 0
    · simp only [if_pos h0]
      exact List.Perm.refl l
    · simp only [if_neg h0]
      by_cases hcmp : 0 ≤ cmp (nth l idx) (nth l (parentIdx idx))
      · simp only [if_pos hcmp]
        exact List.Perm.refl l
      · simp only [if_neg hcmp]
        have hp : parentIdx idx < idx := by
          simp only [parentIdx]
          omega
        exact (heapifyUpGo_perm cmp fuel (swapL l idx (parentIdx idx)) (parentIdx idx)
          (by simp only [length_swapL]; omega)).trans
          (swapL_perm l idx (parentIdx idx) h (by omega))

theorem heapifyDownGo_perm (cmp : T → T → Int) :
    ∀ (fuel : Nat) (l : List T) (idx : Nat), List.Perm (heapifyDownGo cmp fuel l idx) l
  | 0, l, _ => List.Perm.refl l
  | fuel + 1, l, idx => by
    unfold heapifyDownGo
    by_cases hne : smallestIdx cmp l idx = idx
    · simp only [if_pos hne]
      exact List.Perm.refl l
    · simp only [if_neg hne]
      rcases smallestIdx_cases cmp l idx with h | ⟨h1, h2⟩
      · exact absurd h hne
      · exact (heapifyDownGo_perm cmp fuel _ _).trans
          (swapL_perm l idx (smallestIdx cmp l idx) (by omega) h2)

theorem heapPush_perm (cmp : T → T → Int) (l : List T) (x : T) :
    List.Perm (heapPush cmp l x) (x :: l) := by
  unfold heapPush
  have h1 : List.Perm
      (heapifyUpGo cmp (l ++ [x]).length (l ++ [x]) ((l ++ [x]).length - 1)) (l ++ [x]) := by
    apply heapifyUpGo_perm
    simp
  exact h1.trans (List.perm_append_singleton x l)

theorem heapPop_perm (cmp : T → T → Int) (l : List T) (m : T) (q : List T)
    (h : heapPop cmp l = some (m, q)) : List.Perm l (m :: q) := by
  unfold heapPop at h
  by_cases h0 : l.length = 0
  · simp [h0] at h
  · simp only [if_neg h0] at h
    have hne : l ≠ [] := by
      intro hl
      exact h0 (by simp [hl])
    by_cases h1 : 0 < l.dropLast.length
    · simp only [if_pos h1] at h
      rw [Option.some.injEq, Prod.mk.injEq] at h
      obtain ⟨hm, hq⟩ := h
      obtain ⟨a, t, rfl⟩ : ∃ a t, l = a :: t := by
        cases l with
        | nil => exact absurd rfl hne
        | cons a t => exact ⟨a, t, rfl⟩
      have ht : t ≠ [] := by
        intro h'
        subst h'
        simp at h1
      have hm' : m = a := by simpa [nth] using hm.symm
      rw [hm']
      have hperm : List.Perm q ((a :: t).dropLast.set 0 (nth (a :: t) ((a :: t).length - 1))) := by
        rw [← hq]
        exact heapifyDownGo_perm ..
      have hdl : (a :: t).dropLast = a :: t.dropLast := List.dropLast_cons_of_ne_nil ht
      have hbot : nth (a :: t) ((a :: t).length - 1) = t.getLast ht := by
        rw [nth_eq_getElem _ _ (by simp)]
        have := List.getLast_eq_getElem (a :: t) hne
        rw [← this]
        simp [List.getLast_cons ht]
      rw [hdl, hbot] at hperm
      have hset : (a :: t.dropLast).set 0 (t.getLast ht) = t.getLast ht :: t.dropLast := rfl
      rw [hset] at hperm
      have htail : List.Perm t (t.getLast ht :: t.dropLast) := by
        conv_lhs => rw [← List.dropLast_concat_getLast ht]
        exact List.perm_append_singleton ..
      exact (List.Perm.cons a htail).trans (List.Perm.cons a hperm.symm)
    · simp only [if_neg h1] at h
      rw [Option.some.injEq, Prod.mk.injEq] at h
      obtain ⟨hm, hq⟩ := h
      obtain ⟨a, t, rfl⟩ : ∃ a t, l = a :: t := by
        cases l with
        | nil => exact absurd rfl hne
        | cons a t => exact ⟨a, t, rfl⟩
      have ht : t = [] := by
        cases t with
        | nil => rfl
        | cons b t' => simp at h1
      subst ht
      have hm' : m = a := by simpa [nth] using hm.symm
      rw [hm', ← hq]
      rfl

theorem nth_set_ne (l : List T) (i k : Nat) (b : T) (h : k ≠ i) :
    nth (l.set i b) k = nth l k := by
  simp [nth, List.getD_eq_getElem?_getD, List.getElem?_set_ne (Ne.symm h)]

theorem nth_append_left (l l₂ : List T) (i : Nat) (h : i < l.length) :
    nth (l ++ l₂) i = nth l i := by
  rw [nth_eq_getElem _ i (by simp; omega), nth_eq_getElem l i h]
  exact List.getElem_append_left h

theorem nth_dropLast (l : List T) (i : Nat) (h : i < l.length - 1) :
    nth l.dropLast i = nth l i := by
  rw [nth_eq_getElem _ i (by simp; omega), nth_eq_getElem l i (by omega)]
  exact List.getElem_dropLast l i (by simp; omega)

theorem parentIdx_lt (i : Nat) (h : 0 < i) : parentIdx i < i := by
  simp only [parentIdx]; omega

theorem parentIdx_children (i j : Nat) (h : 0 < j) :
    parentIdx j = i ↔ (j = 2 * i + 1 ∨ j = 2 * i + 2) := by
  simp only [parentIdx]; omega

section HeapInvariant

variable (cmp : T → T → Int)
variable (hanti : ∀ a b, cmp a b = -cmp b a)
variable (htr : ∀ a b c, cmp a b ≤ 0 → cmp b c ≤ 0 → cmp a c ≤ 0)

include hanti htr

theorem isHeap_root_min (l : List T) (hheap : IsHeapList cmp l) :
    ∀ i, i < l.length → cmp (nth l 0) (nth l i) ≤ 0 := by
  intro i
  induction i using Nat.strong_induction_on with
  | _ i ih =>
    intro hi
    rcases Nat.eq_zero_or_pos i with h0 | h0
    · subst h0
      have := hanti (nth l 0) (nth l 0)
      omega
    · have hpar := parentIdx_lt i h0
      have h1 := ih (parentIdx i) hpar (by omega)
      have h2 := hheap i h0 hi
      exact htr _ _ _ h1 h2

theorem heapifyUpGo_isHeap :
    ∀ (fuel : Nat) (l : List T) (idx : Nat),
      idx < fuel →
      idx < l.length →
      (∀ i, 0 < i → i < l.length → i ≠ idx → cmp (nth l (parentIdx i)) (nth l i) ≤ 0) →
      (0 < idx → ∀ j, j < l.length → parentIdx j = idx →
        cmp (nth l (parentIdx idx)) (nth l j) ≤ 0) →
      IsHeapList cmp (heapifyUpGo cmp fuel l idx) := by
  intro fuel
  induction fuel with
  | zero =>
    intro l idx hf
    omega
  | succ fuel ih =>
    intro l idx hf hidx hA hB
    unfold heapifyUpGo
    dsimp only
    by_cases h0 : idx = 0
    · simp only [if_pos h0]
      intro i hi0 hi
      exact hA i hi0 hi (by omega)
    · simp only [if_neg h0]
      by_cases hcmp : 0 ≤ cmp (nth l idx) (nth l (parentIdx idx))
      · simp only [if_pos hcmp]
        intro i hi0 hi
        by_cases hii : i = idx
        · subst hii
          have := hanti (nth l (parentIdx i)) (nth l i)
          omega
        · exact hA i hi0 hi hii
      · simp only [if_neg hcmp]
        have hidx0 : 0 < idx := by omega
        set p := parentIdx idx with hpdef
        have hp : p < idx := parentIdx_lt idx hidx0
        have hplen : p < l.length := by omega
        have hlen' : (swapL l idx p).length = l.length := length_swapL l idx p
        have hcmp' : cmp (nth l idx) (nth l p) < 0 := by omega
        apply ih
        · omega
        · rw [hlen']
          omega
        · -- heap property everywhere except possibly position p, in the swapped list
          intro i hi0 hi hip
          rw [hlen'] at hi
          by_cases hii : i = idx
          · -- position idx now holds the old parent; the edge (p, idx) is now good
            subst hii
            have hpar : parentIdx i = p := rfl
            rw [hpar, nth_swapL_snd l i p hidx hplen, nth_swapL_fst l i p hidx hplen]
            omega
          · by_cases hpi : parentIdx i = idx
            · -- i is a child of idx: its parent slot now holds the old grandparent item
              have hchild : i = 2 * idx + 1 ∨ i = 2 * idx + 2 :=
                (parentIdx_children idx i hi0).mp hpi
              have hi_ne_p : i ≠ p := by omega
              rw [hpi, nth_swapL_fst l idx p hidx hplen, nth_swapL_other l idx p i hii hi_ne_p]
              exact hB hidx0 i hi hpi
            · by_cases hpp : parentIdx i = p
              · -- i is a child of p other than idx: its parent slot holds the old idx item
                rw [hpp, nth_swapL_snd l idx p hidx hplen]
                have hi_ne_p : i ≠ p := by
                  intro hE
                  have := parentIdx_lt i hi0
                  omega
                rw [nth_swapL_other l idx p i hii hi_ne_p]
                have h1 := hA i hi0 hi hii
                rw [hpp] at h1
                exact htr _ _ _ (by omega) h1
              · -- untouched edge
                have hi_ne_p : i ≠ p := hip
                rw [nth_swapL_other l idx p (parentIdx i) hpi hpp,
                  nth_swapL_other l idx p i hii hi_ne_p]
                exact hA i hi0 hi hii
        · -- bridge: the grandparent dominates the children of p in the swapped list
          intro hp0 j hj hpj
          rw [hlen'] at hj
          have hpp_lt : parentIdx p < p := parentIdx_lt p hp0
          have hpp_ne_idx : parentIdx p ≠ idx := by omega
          have hpp_ne_p : parentIdx p ≠ p := by omega
          rw [nth_swapL_other l idx p (parentIdx p) hpp_ne_idx hpp_ne_p]
          have hj0 : 0 < j := by
            have hpj2 := hpj
            simp only [parentIdx] at hpj2
            omega
          have hchild : j = 2 * p + 1 ∨ j = 2 * p + 2 := (parentIdx_children p j hj0).mp hpj
          by_cases hji : j = idx
          · subst hji
            rw [nth_swapL_fst l j p hidx hplen]
            exact hA p hp0 hplen (by omega)
          · have hj_ne_p : j ≠ p := by omega
            rw [nth_swapL_other l idx p j hji hj_ne_p]
            have h1 := hA p hp0 hplen (by omega)
            have h2 := hA j hj0 hj hji
            rw [hpj] at h2
            exact htr _ _ _ h1 h2

theorem heapPush_isHeap (l : List T) (x : T) (hheap : IsHeapList cmp l) :
    IsHeapList cmp (heapPush cmp l x) := by
  unfold heapPush
  have hlen : (l ++ [x]).length = l.length + 1 := by simp
  apply heapifyUpGo_isHeap cmp hanti htr
  · rw [hlen]
    omega
  · rw [hlen]
    omega
  · intro i hi0 hi hine
    rw [hlen] at hi
    have hi' : i < l.length := by omega
    rw [nth_append_left l [x] i hi', nth_append_left l [x] (parentIdx i) (by
      have := parentIdx_lt i hi0
      omega)]
    exact hheap i hi0 hi'
  · intro hidx0 j hj hpj
    rw [hlen] at hj
    have hj0 : 0 < j := by
      simp only [parentIdx] at hpj
      omega
    have := (parentIdx_children ((l ++ [x]).length - 1) j hj0).mp hpj
    rw [hlen] at this
    omega

omit htr in
theorem smallestIdx_eq_self_spec (l : List T) (idx : Nat)
    (h : smallestIdx cmp l idx = idx) :
    (2 * idx + 1 < l.length → cmp (nth l idx) (nth l (2 * idx + 1)) ≤ 0) ∧
    (2 * idx + 2 < l.length → cmp (nth l idx) (nth l (2 * idx + 2)) ≤ 0) := by
  simp only [smallestIdx] at h
  by_cases h1 : 2 * idx + 1 < l.length ∧ cmp (nth l (2 * idx + 1)) (nth l idx) < 0
  · exfalso
    simp only [if_pos h1] at h
    split at h <;> omega
  · simp only [if_neg h1] at h
    constructor
    · intro hlen
      have := hanti (nth l idx) (nth l (2 * idx + 1))
      have : ¬cmp (nth l (2 * idx + 1)) (nth l idx) < 0 := fun hc => h1 ⟨hlen, hc⟩
      omega
    · intro hlen
      by_cases h2 : 2 * idx + 2 < l.length ∧ cmp (nth l (2 * idx + 2)) (nth l idx) < 0
      · simp only [if_pos h2] at h
        omega
      · have := hanti (nth l idx) (nth l (2 * idx + 2))
        have : ¬cmp (nth l (2 * idx + 2)) (nth l idx) < 0 := fun hc => h2 ⟨hlen, hc⟩
        omega

theorem smallestIdx_ne_spec (l : List T) (idx : Nat)
    (h : smallestIdx cmp l idx ≠ idx) :
    idx < smallestIdx cmp l idx ∧ smallestIdx cmp l idx < l.length ∧
    parentIdx (smallestIdx cmp l idx) = idx ∧
    cmp (nth l (smallestIdx cmp l idx)) (nth l idx) ≤ 0 ∧
    (∀ j, 0 < j → j < l.length → parentIdx j = idx →
      cmp (nth l (smallestIdx cmp l idx)) (nth l j) ≤ 0) := by
  have hself : ∀ x : T, cmp x x = 0 := by
    intro x
    have := hanti x x
    omega
  by_cases h1 : 2 * idx + 1 < l.length ∧ cmp (nth l (2 * idx + 1)) (nth l idx) < 0
  · by_cases h2 : 2 * idx + 2 < l.length ∧
        cmp (nth l (2 * idx + 2)) (nth l (2 * idx + 1)) < 0
    · have hs : smallestIdx cmp l idx = 2 * idx + 2 := by
        simp only [smallestIdx, if_pos h1, if_pos h2]
      rw [hs]
      refine ⟨by omega, h2.1, (parentIdx_children idx _ (by omega)).mpr (Or.inr rfl), ?_, ?_⟩
      · exact htr (nth l (2 * idx + 2)) (nth l (2 * idx + 1)) (nth l idx)
          (le_of_lt h2.2) (le_of_lt h1.2)
      · intro j hj0 hj hpj
        rcases (parentIdx_children idx j hj0).mp hpj with hj1 | hj1 <;> subst hj1
        · exact le_of_lt h2.2
        · simp [hself]
    · have hs : smallestIdx cmp l idx = 2 * idx + 1 := by
        simp only [smallestIdx, if_pos h1, if_neg h2]
      rw [hs]
      refine ⟨by omega, h1.1, (parentIdx_children idx _ (by omega)).mpr (Or.inl rfl),
        le_of_lt h1.2, ?_⟩
      intro j hj0 hj hpj
      rcases (parentIdx_children idx j hj0).mp hpj with hj1 | hj1 <;> subst hj1
      · simp [hself]
      · have hge : ¬cmp (nth l (2 * idx + 2)) (nth l (2 * idx + 1)) < 0 :=
          fun hc => h2 ⟨hj, hc⟩
        have := hanti (nth l (2 * idx + 1)) (nth l (2 * idx + 2))
        omega
  · by_cases h2 : 2 * idx + 2 < l.length ∧ cmp (nth l (2 * idx + 2)) (nth l idx) < 0
    · have hs : smallestIdx cmp l idx = 2 * idx + 2 := by
        simp only [smallestIdx, if_neg h1, if_pos h2]
      rw [hs]
      refine ⟨by omega, h2.1, (parentIdx_children idx _ (by omega)).mpr (Or.inr rfl),
        le_of_lt h2.2, ?_⟩
      intro j hj0 hj hpj
      rcases (parentIdx_children idx j hj0).mp hpj with hj1 | hj1 <;> subst hj1
      · have hge : ¬cmp (nth l (2 * idx + 1)) (nth l idx) < 0 := fun hc => h1 ⟨hj, hc⟩
        have hflip := hanti (nth l idx) (nth l (2 * idx + 1))
        exact htr (nth l (2 * idx + 2)) (nth l idx) (nth l (2 * idx + 1))
          (le_of_lt h2.2) (by omega)
      · simp [hself]
    · exfalso
      apply h
      simp only [smallestIdx, if_neg h1, if_neg h2]

theorem heapifyDownGo_isHeap :
    ∀ (fuel : Nat) (l : List T) (idx : Nat),
      l.length - idx ≤ fuel →
      (∀ i, 0 < i → i < l.length → parentIdx i ≠ idx →
        cmp (nth l (parentIdx i)) (nth l i) ≤ 0) →
      (0 < idx → ∀ j, 0 < j → j < l.length → parentIdx j = idx →
        cmp (nth l (parentIdx idx)) (nth l j) ≤ 0) →
      IsHeapList cmp (heapifyDownGo cmp fuel l idx) := by
  intro fuel
  induction fuel with
  | zero =>
    intro l idx hf hA hB
    show IsHeapList cmp l
    intro i hi0 hi
    have hpl : parentIdx i < i := parentIdx_lt i hi0
    exact hA i hi0 hi (by omega)
  | succ fuel ih =>
    intro l idx hf hA hB
    unfold heapifyDownGo
    by_cases heq : smallestIdx cmp l idx = idx
    · simp only [if_pos heq]
      intro i hi0 hi
      by_cases hpi : parentIdx i = idx
      · rcases (parentIdx_children idx i hi0).mp hpi with hi1 | hi1
        · have := (smallestIdx_eq_self_spec cmp hanti l idx heq).1 (hi1 ▸ hi)
          rw [hpi, hi1]
          exact this
        · have := (smallestIdx_eq_self_spec cmp hanti l idx heq).2 (hi1 ▸ hi)
          rw [hpi, hi1]
          exact this
      · exact hA i hi0 hi hpi
    · simp only [if_neg heq]
      obtain ⟨hlt, hslen, hps, hcmps, hmin⟩ := smallestIdx_ne_spec cmp hanti htr l idx heq
      set s := smallestIdx cmp l idx with hs
      have hidxlen : idx < l.length := by omega
      apply ih
      · rw [length_swapL]
        omega
      ·   -- heap property except possibly below position s, in the swapped list
        intro i hi0 hi hpi
        rw [length_swapL] at hi
        by_cases his : i = s
        · subst his
          rw [hps, nth_swapL_fst l idx s hidxlen hslen, nth_swapL_snd l idx s hidxlen hslen]
          exact hcmps
        · by_cases hii : i = idx
          · subst hii
            have hp0 : 0 < i := hi0
            have hpar_lt : parentIdx i < i := parentIdx_lt i hi0
            rw [nth_swapL_other l i s (parentIdx i) (by omega) (by omega),
              nth_swapL_fst l i s hidxlen hslen]
            exact hB hi0 s (by omega) hslen hps
          · by_cases hpidx : parentIdx i = idx
            · -- sibling of s under idx
              rw [hpidx, nth_swapL_fst l idx s hidxlen hslen,
                nth_swapL_other l idx s i hii his]
              exact hmin i hi0 hi hpidx
            · -- untouched edge: parent of i is neither idx nor s
              rw [nth_swapL_other l idx s (parentIdx i) hpidx hpi,
                nth_swapL_other l idx s i hii his]
              exact hA i hi0 hi hpidx
      · -- bridge: old s item (now at idx) dominates the children of s
        intro hs0 j hj0 hj hpj
        rw [length_swapL] at hj
        rw [hps, nth_swapL_fst l idx s hidxlen hslen]
        have hjs : j ≠ s := by
          have := parentIdx_lt j hj0
          omega
        have hji : j ≠ idx := by
          have := parentIdx_lt j hj0
          omega
        rw [nth_swapL_other l idx s j hji hjs]
        have := hA j hj0 hj (by omega)
        rw [hpj] at this
        exact this

theorem heapPop_isHeap (l : List T) (m : T) (q : List T)
    (hheap : IsHeapList cmp l) (h : heapPop cmp l = some (m, q)) :
    IsHeapList cmp q := by
  unfold heapPop at h
  by_cases h0 : l.length = 0
  · simp [h0] at h
  · simp only [if_neg h0] at h
    by_cases h1 : 0 < l.dropLast.length
    · simp only [if_pos h1] at h
      rw [Option.some.injEq, Prod.mk.injEq] at h
      obtain ⟨hm, hq⟩ := h
      rw [← hq]
      apply heapifyDownGo_isHeap cmp hanti htr
      · omega
      · intro i hi0 hi hpi
        rw [List.length_set] at hi
        have hdl : l.dropLast.length = l.length - 1 := by simp
        have hpar_lt : parentIdx i < i := parentIdx_lt i hi0
        rw [nth_set_ne _ 0 i _ (by omega), nth_set_ne _ 0 (parentIdx i) _ hpi,
          nth_dropLast l i (by omega), nth_dropLast l (parentIdx i) (by omega)]
        exact hheap i hi0 (by omega)
      · intro h'
        omega
    · simp only [if_neg h1] at h
      rw [Option.some.injEq, Prod.mk.injEq] at h
      obtain ⟨hm, hq⟩ := h
      rw [← hq]
      intro i hi0 hi
      omega

end HeapInvariant

/-! ## Values, errors, callbacks (`src/types.ts`, `src/events/Event.ts`, `src/errors/*`)

JS runtime values stored in an event's `_value` field.  The pending state is
represented, exactly as in the source, by the `_value` field holding the
string `'PENDING'`.  Thrown exceptions are modelled out-of-band as an
`Option SimErr` returned next to the state (JS mutations before a `throw`
persist, so the state is returned in both cases). -/

inductive JSVal where
  | str (s : String)
  | num (n : Int)
  | null
  | undef
  | error (msg : String)
  | condValue (events : List Nat)
deriving DecidableEq, Repr, Inhabited

/-- The `'PENDING'` sentinel (`src/types.ts`: `EventStatus = 'PENDING' | any`). -/
def PENDING : JSVal := JSVal.str "PENDING"

inductive SimErr where
  | emptySchedule
  | stopSimulation (v : JSVal)
  | thrown (v : JSVal)
  | outOfFuel
deriving DecidableEq, Repr

/-- The callbacks the library itself registers on events, plus two
test-style callbacks (`note` records its tag on an observation trace,
`raiseStr` throws) standing for the plain user callbacks the repository's
tests install. -/
inductive Callback where
  | note (tag : Nat)
  | raiseStr (s : String)
  | stopSim
  | resume (pid : Nat)
  | check (cid : Nat)
  | buildValue (cid : Nat)
  | triggerGet
  | triggerPut
deriving DecidableEq, Repr

/-- The two condition predicates `Event.allEvents` / `Event.anyEvents`. -/
inductive CondEval where
  | allEvents
  | anyEvents
deriving DecidableEq, Repr

/-- `allEvents(events, count) = events.length === count`;
`anyEvents(events, count) = count > 0 || events.length === 0`. -/
def evalCond : CondEval → List Nat → Nat → Bool
  | .allEvents, events, count => events.length == count
  | .anyEvents, events, count => count > 0 || events.length == 0

/-- The mutable fields of an `Event` (`src/events/Event.ts`), including the
condition fields (`_evaluate`, `_events`, `_count`) and the fields added by
`GetResource`/`PutResource` (`amount`, `proc`).  `callbacks = none` models
the released (`null`) list; `ok = none` models `_ok === undefined`. -/
structure EventRec where
  ok : Option Bool
  value : JSVal
  defused : Bool
  scheduled : Bool
  callbacks : Option (List Callback)
  evaluate : Option CondEval
  events : List Nat
  count : Nat
  amount : Int
  proc : Option Nat
deriving DecidableEq, Repr

/-- The field values `Event`'s constructor installs. -/
def defaultEvent : EventRec :=
  { ok := none, value := PENDING, defused := false, scheduled := false,
    callbacks := some [], evaluate := none, events := [], count := 0,
    amount := 0, proc := none }

instance : Inhabited EventRec := ⟨defaultEvent⟩

/-- The counting resource (`src/resources/Resource.ts` and `BaseResource.ts`);
`users` is the array of placeholder `1`s the source pushes and pops. -/
structure ResourceRec where
  capacity : Int
  users : List Int
  putQueue : List Nat
  getQueue : List Nat
deriving DecidableEq, Repr

/-- What a coroutine body does when resumed: yield a fresh
`new Timeout(env, delay, value)`, yield an existing event, yield a non-Event
value, return, or let an exception escape.  `st` is the coroutine's next
suspension point. -/
inductive GenOut where
  | yieldTimeout (delay : Int) (value : JSVal) (st : Nat)
  | yieldEvent (eid : Nat) (st : Nat)
  | yieldBad (v : JSVal) (st : Nat)
  | retVal (v : JSVal)
  | throwOut (v : JSVal)
deriving DecidableEq, Repr

/-- A generator program: `next` resumes the coroutine at a suspension point
with a value, `throwIn` throws a value into it (`gen.next` / `gen.throw`). -/
structure GenSem where
  next : Nat → JSVal → GenOut
  throwIn : Nat → JSVal → GenOut

/-- The whole mutable state of an `Environment` together with its events
(`src/core/Environment.ts`): virtual clock `now`, the heap's item array
`queue`, the insertion counter `eid` (`this._eid`), an allocator `nextEv`
for event identities, the event store `evs` (newest binding first), the
`activeProcess` reference, the coroutine suspension points `gens`, at most
one resource `res`, an observation `trace` for `note` callbacks, and two
ghost accounting totals `acq`/`rel` incremented exactly when `_doGet` /
`_doPut` succeed. -/
structure SimState where
  now : Int
  queue : List QueueItem
  eid : Nat
  nextEv : Nat
  evs : List (Nat × EventRec)
  active : Option Nat
  gens : List (Nat × Nat)
  res : Option ResourceRec
  trace : List Nat
  acq : Int
  rel : Int
deriving Repr

/-- `new Environment(initialTime)`. -/
def initState (initialTime : Int) : SimState :=
  { now := initialTime, queue := [], eid := 0, nextEv := 0, evs := [],
    active := none, gens := [], res := none, trace := [], acq := 0, rel := 0 }

def getEv (s : SimState) (i : Nat) : EventRec := (s.evs.lookup i).getD defaultEvent

def setEv (s : SimState) (i : Nat) (e : EventRec) : SimState :=
  { s with evs := (i, e) :: s.evs }

def allocEvent (s : SimState) (e : EventRec) : SimState × Nat :=
  ({ s with nextEv := s.nextEv + 1, evs := (s.nextEv, e) :: s.evs }, s.nextEv)

def getGen (s : SimState) (pid : Nat) : Nat := (s.gens.lookup pid).getD 0

def setGen (s : SimState) (pid st : Nat) : SimState :=
  { s with gens := (pid, st) :: s.gens }

/-- `priority === 'URGENT' ? 0 : 1` in `Environment.schedule`. -/
def prioNum : Priority → Int
  | .URGENT => 0
  | .NORMAL => 1

/-- `Environment.schedule(event, priority, delay)`: pushes
`{time: now + delay, priority, eid: eid++, event}` and sets
`event._scheduled = true`.  There is no validation of `delay`. -/
def schedule (s : SimState) (evId : Nat) (priority : Priority) (delay : Int) : SimState :=
  let item : QueueItem :=
    { time := s.now + delay, priority := prioNum priority, eid := s.eid, event := evId }
  let s1 := { s with queue := heapPush cmpQI s.queue item, eid := s.eid + 1 }
  setEv s1 evId { getEv s1 evId with scheduled := true }

/-- `new Event(env)` (no condition arguments). -/
def newEvent (s : SimState) : SimState × Nat := allocEvent s defaultEvent

/-- `Event.triggered`: `this._value !== 'PENDING'`. -/
def triggered (s : SimState) (id : Nat) : Bool := (getEv s id).value ≠ PENDING

/-- `Event.processed`: `this.callbacks === null`. -/
def processed (s : SimState) (id : Nat) : Bool := (getEv s id).callbacks = none

/-- `Event.succeed(value)`: throws if `_value !== 'PENDING'`; else sets
`_ok = true`, `_value = value` and schedules self unless already scheduled. -/
def succeed (s : SimState) (id : Nat) (v : JSVal) : SimState × Option SimErr :=
  let ev := getEv s id
  if ev.value ≠ PENDING then
    (s, some (.thrown (.error "has already been triggered")))
  else
    let s1 := setEv s id { ev with ok := some true, value := v }
    if ev.scheduled then (s1, none)
    else (schedule s1 id .NORMAL 0, none)

def isErrorVal : JSVal → Bool
  | .error _ => true
  | _ => false

/-- `Event.fail(exception)`: throws if `_value !== 'PENDING'`; `TypeError`
if the argument is not an `Error`; else sets `_ok = false`,
`_value = exception` and schedules self unless already scheduled. -/
def fail (s : SimState) (id : Nat) (v : JSVal) : SimState × Option SimErr :=
  let ev := getEv s id
  if ev.value ≠ PENDING then
    (s, some (.thrown (.error "has already been triggered")))
  else if ¬ isErrorVal v then
    (s, some (.thrown (.error "is not an exception")))
  else
    let s1 := setEv s id { ev with ok := some false, value := v }
    if ev.scheduled then (s1, none)
    else (schedule s1 id .NORMAL 0, none)

/-- `Event.trigger(event)`: copies `_ok` and `_value` from the source event
and schedules self unless already scheduled.  The source performs no
already-triggered check here. -/
def trigger (s : SimState) (targetId srcId : Nat) : SimState :=
  let src := getEv s srcId
  let tgt := getEv s targetId
  let s1 := setEv s targetId { tgt with ok := src.ok, value := src.value }
  if tgt.scheduled then s1 else schedule s1 targetId .NORMAL 0

/-- `new Timeout(env, delay, value)` (`src/events/Timeout.ts`): after
`super(env)`, throws on `delay < 0`; else sets `_ok = true`,
`_value = value` and schedules self at `delay` with NORMAL priority. -/
def newTimeout (s : SimState) (delay : Int) (value : JSVal) :
    (SimState × Nat) × Option SimErr :=
  let (s1, id) := allocEvent s defaultEvent
  if delay < 0 then ((s1, id), some (.thrown (.error "Negative delay value")))
  else
    let s2 := setEv s1 id { getEv s1 id with ok := some true, value := value }
    ((schedule s2 id .NORMAL delay, id), none)

/-- `new Initialize(env, process)` (`src/events/Initialize.ts`): after
`super(env)`, sets `callbacks = [process._resume]`, `_ok = true`, and
URGENT-schedules self. -/
def newInitialize (s : SimState) (pid : Nat) : SimState × Nat :=
  let (s1, id) := allocEvent s defaultEvent
  let s2 := setEv s1 id
    { getEv s1 id with callbacks := some [Callback.resume pid], ok := some true }
  (schedule s2 id .URGENT 0, id)

/-- `new Process(env, generatorFunction)`: allocates the process event,
creates the generator (suspension point `startState`), and constructs the
bootstrap `Initialize`. -/
def newProcess (s : SimState) (startState : Nat) : SimState × Nat :=
  let (s1, pid) := allocEvent s defaultEvent
  let s2 := { s1 with gens := (pid, startState) :: s1.gens }
  ((newInitialize s2 pid).1, pid)

/-- `Process.interrupt(cause)`: if alive (`_value === 'PENDING'`), sets
`_ok = false`, `_value = new Interrupt(cause).toString()` (the string
`"Interrupt: " + cause`) and schedules self unconditionally. -/
def interrupt (s : SimState) (pid : Nat) (cause : String) : SimState :=
  let ev := getEv s pid
  if ev.value = PENDING then
    schedule (setEv s pid
      { ev with ok := some false, value := JSVal.str ("Interrupt: " ++ cause) }) pid .NORMAL 0
  else s

/-! ## Condition events (`src/events/Event.ts`, `_check` / `_buildValue` /
`_initializeCondition`) -/

/-- `Event._check(event)` on the condition `condId`, where `childId` is the
child whose trigger is being observed: return if self already triggered;
increment `_count`; on a failed child mark it defused and fail self with its
value; else succeed self with a fresh `ConditionValue` when the predicate
holds of `(events, count)`. -/
def condCheck (s : SimState) (condId childId : Nat) : SimState × Option SimErr :=
  let c := getEv s condId
  if c.value ≠ PENDING then (s, none)
  else
    let c1 := { c with count := c.count + 1 }
    let s1 := setEv s condId c1
    let child := getEv s1 childId
    if child.ok ≠ some true then
      let s2 := setEv s1 childId { child with defused := true }
      fail s2 condId child.value
    else if evalCond (c1.evaluate.getD .allEvents) c1.events c1.count then
      succeed s1 condId (JSVal.condValue [])
    else (s1, none)

/-- `Event._buildValue(event)`: `_removeCheckCallbacks` first (a no-op in the
source: it filters by the identity of a freshly `.bind(this)`-created
function, which never equals the registered one); then, if self succeeded,
replace `_value` with a `ConditionValue` listing the children whose callback
list is released, in child order. -/
def condBuildValue (s : SimState) (condId : Nat) : SimState :=
  let c := getEv s condId
  if c.ok = some true then
    let processedChildren := c.events.filter (fun cid => (getEv s cid).callbacks = none)
    setEv s condId { c with value := JSVal.condValue processedChildren }
  else s

/-- The loop of `Event._initializeCondition`: for each child, if its
callback list is released run `_check` immediately (errors propagate),
otherwise register a check-callback on it.  (The source also rejects
children from a different environment; the model has a single
environment.) -/
def initCondition (s : SimState) (condId : Nat) : List Nat → SimState × Option SimErr
  | [] => (s, none)
  | child :: rest =>
    let ch := getEv s child
    match ch.callbacks with
    | none =>
      match condCheck s condId child with
      | (s', some e) => (s', some e)
      | (s', none) => initCondition s' condId rest
    | some cbs =>
      initCondition (setEv s child { ch with callbacks := some (cbs ++ [Callback.check condId]) })
        condId rest

/-- `new Event(env, evaluate, events)` with condition arguments: the
constructor stores `_evaluate`, `_events`, `_count = 0` and runs
`_initializeCondition` — which registers the checks and then pushes
`_buildValue` onto self — only when `events.length > 0`. -/
def newCondEvent (s : SimState) (evaluate : CondEval) (children : List Nat) :
    (SimState × Nat) × Option SimErr :=
  let (s1, id) := allocEvent s
    { defaultEvent with evaluate := some evaluate, events := children }
  if children.length > 0 then
    match initCondition s1 id children with
    | (s2, some e) => ((s2, id), some e)
    | (s2, none) =>
      let c := getEv s2 id
      match c.callbacks with
      | some cbs =>
        ((setEv s2 id { c with callbacks := some (cbs ++ [Callback.buildValue id]) }, id), none)
      | none => ((s2, id), none)
  else ((s1, id), none)

/-! ## Resources (`src/resources/Resource.ts`, `BaseResource.ts`,
`PutResource.ts`) -/

/-- `new Resource(env, capacity)`: throws unless `capacity > 0`;
starts with empty `users`, `putQueue`, `getQueue`. -/
def newResource (s : SimState) (capacity : Int) : SimState × Option SimErr :=
  if capacity ≤ 0 then (s, some (.thrown (.error "capacity must be > 0")))
  else
    let r : ResourceRec := { capacity := capacity, users := [], putQueue := [], getQueue := [] }
    ({ s with res := some r, acq := 0, rel := 0 }, none)

/-- `Resource._doGet(event)`: if `capacity - users.length >= event.amount`,
push `event.amount` placeholder `1`s, succeed the event and report
*proceed*; else report *stop*.  The ghost total `acq` records the acquired
amount. -/
def doGet (s : SimState) (evId : Nat) : (SimState × Bool) × Option SimErr :=
  match s.res with
  | none => ((s, false), none)
  | some r =>
    let ev := getEv s evId
    if r.capacity - (r.users.length : Int) ≥ ev.amount then
      let s1 := { s with
        res := some { r with users := r.users ++ List.replicate ev.amount.toNat 1 },
        acq := s.acq + ev.amount }
      match succeed s1 evId JSVal.null with
      | (s2, e) => ((s2, true), e)
    else ((s, false), none)

/-- `Resource._doPut(event)`: if `users.length >= event.amount`, pop
`event.amount` placeholders, succeed the event and report *proceed*; else
report *stop*.  The ghost total `rel` records the released amount. -/
def doPut (s : SimState) (evId : Nat) : (SimState × Bool) × Option SimErr :=
  match s.res with
  | none => ((s, false), none)
  | some r =>
    let ev := getEv s evId
    if (r.users.length : Int) ≥ ev.amount then
      let s1 := { s with
        res := some { r with users := r.users.take (r.users.length - ev.amount.toNat) },
        rel := s.rel + ev.amount }
      match succeed s1 evId JSVal.null with
      | (s2, e) => ((s2, true), e)
    else ((s, false), none)

/-- `BaseResource._triggerGet`: walk `getQueue` from index `idx`; run
`_doGet`; splice the event out if it became triggered, else advance; stop
when `_doGet` reports *stop*.  Fuel only models the loop's termination. -/
def triggerGetLoop (fuel : Nat) (s : SimState) (idx : Nat) : SimState × Option SimErr :=
  match fuel with
  | 0 => (s, some .outOfFuel)
  | fuel + 1 =>
    match s.res with
    | none => (s, none)
    | some r =>
      if h : idx < r.getQueue.length then
        let evId := r.getQueue.get ⟨idx, h⟩
        match doGet s evId with
        | ((s1, _), some e) => (s1, some e)
        | ((s1, proceed), none) =>
          match s1.res with
          | none => (s1, none)
          | some r1 =>
            let striggered := (getEv s1 evId).value ≠ PENDING
            let s2 := if striggered then
                { s1 with res := some { r1 with getQueue := r1.getQueue.eraseIdx idx } }
              else s1
            let idx' := if striggered then idx else idx + 1
            if proceed then triggerGetLoop fuel s2 idx' else (s2, none)
      else (s, none)

/-- `BaseResource._triggerPut`: symmetric on `putQueue` with `_doPut`. -/
def triggerPutLoop (fuel : Nat) (s : SimState) (idx : Nat) : SimState × Option SimErr :=
  match fuel with
  | 0 => (s, some .outOfFuel)
  | fuel + 1 =>
    match s.res with
    | none => (s, none)
    | some r =>
      if h : idx < r.putQueue.length then
        let evId := r.putQueue.get ⟨idx, h⟩
        match doPut s evId with
        | ((s1, _), some e) => (s1, some e)
        | ((s1, proceed), none) =>
          match s1.res with
          | none => (s1, none)
          | some r1 =>
            let striggered := (getEv s1 evId).value ≠ PENDING
            let s2 := if striggered then
                { s1 with res := some { r1 with putQueue := r1.putQueue.eraseIdx idx } }
              else s1
            let idx' := if striggered then idx else idx + 1
            if proceed then triggerPutLoop fuel s2 idx' else (s2, none)
      else (s, none)

/-- `new PutResource(resource, amount)` (`release(amount)`): after
`super(env)`, throws unless `amount > 0`; records the active process;
appends self to `putQueue`; pushes the resource's `_triggerGet` onto own
callbacks; runs `_triggerPut()`. -/
def newPutResource (fuel : Nat) (s : SimState) (amount : Int) :
    (SimState × Nat) × Option SimErr :=
  let (s1, id) := allocEvent s defaultEvent
  if amount ≤ 0 then ((s1, id), some (.thrown (.error "Amount must be > 0")))
  else
    match s1.res with
    | none => ((s1, id), none)
    | some r =>
      let s2 := setEv s1 id { getEv s1 id with amount := amount, proc := s1.active }
      let s3 := { s2 with res := some { r with putQueue := r.putQueue ++ [id] } }
      let ev := getEv s3 id
      let s4 := setEv s3 id
        { ev with callbacks := ev.callbacks.map (fun cbs => cbs ++ [Callback.triggerGet]) }
      match triggerPutLoop fuel s4 0 with
      | (s5, e) => ((s5, id), e)

/-- Modelled from the spec: `GetResource` (`src/resources/GetResource.ts` is
referenced by `SimJS.ts` but missing from the snapshot).  Spec §4.6: on
construction validate `amount > 0` (else `CapacityViolation`); remember the
currently active Process; enqueue self in `get_queue`; push the resource's
"trigger put" handler onto self's callbacks; call `trigger_put` once; call
`trigger_get` once. -/
def newGetResource (fuel : Nat) (s : SimState) (amount : Int) :
    (SimState × Nat) × Option SimErr :=
  let (s1, id) := allocEvent s defaultEvent
  if amount ≤ 0 then ((s1, id), some (.thrown (.error "Amount must be > 0")))
  else
    match s1.res with
    | none => ((s1, id), none)
    | some r =>
      let s2 := setEv s1 id { getEv s1 id with amount := amount, proc := s1.active }
      let s3 := { s2 with res := some { r with getQueue := r.getQueue ++ [id] } }
      let ev := getEv s3 id
      let s4 := setEv s3 id
        { ev with callbacks := ev.callbacks.map (fun cbs => cbs ++ [Callback.triggerPut]) }
      match triggerPutLoop fuel s4 0 with
      | (s5, some e) => ((s5, id), some e)
      | (s5, none) =>
        match triggerGetLoop fuel s5 0 with
        | (s6, e) => ((s6, id), e)

/-! ## Process resumption (`src/events/Process.ts`, `_resume`) -/

/-- The loop body of `Process._resume`: take the waking event; advance the
coroutine with `gen.next(value)` on success or `gen.throw(value)` on
failure; then dispatch.  A coroutine return sets the process outcome
(without scheduling); an escaping exception, or an invalid yield, takes the
`catch` path (fail self and schedule); a yielded pending event gets the
resume callback registered; a yielded already-processed event feeds the
loop again.  Yielding a fresh `Timeout` first runs that constructor. -/
def resumeInner (G : GenSem) : Nat → SimState → Nat → Nat → SimState × Option SimErr
  | 0, s, _, _ => (s, some .outOfFuel)
  | fuel + 1, s, pid, nextEvId =>
    let nev := getEv s nextEvId
    let out := if nev.ok = some true then G.next (getGen s pid) nev.value
      else G.throwIn (getGen s pid) nev.value
    match out with
    | .retVal v =>
      (setEv s pid { getEv s pid with ok := some true, value := v }, none)
    | .throwOut v =>
      let s1 := setEv s pid { getEv s pid with ok := some false, value := v }
      (schedule s1 pid .NORMAL 0, none)
    | .yieldBad _ st =>
      let s1 := setGen s pid st
      let s2 := setEv s1 pid
        { getEv s1 pid with ok := some false, value := JSVal.error "Invalid Yield value" }
      (schedule s2 pid .NORMAL 0, none)
    | .yieldTimeout d v st =>
      let s1 := setGen s pid st
      match newTimeout s1 d v with
      | ((s2, _), some _) =>
        -- the constructor threw inside the coroutine body; the catch path
        let s3 := setEv s2 pid
          { getEv s2 pid with ok := some false, value := JSVal.error "Negative delay value" }
        (schedule s3 pid .NORMAL 0, none)
      | ((s2, tid), none) =>
        let ev := getEv s2 tid
        match ev.callbacks with
        | some cbs =>
          (setEv s2 tid { ev with callbacks := some (cbs ++ [Callback.resume pid]) }, none)
        | none => resumeInner G fuel s2 pid tid
    | .yieldEvent eid st =>
      let s1 := setGen s pid st
      let ev := getEv s1 eid
      match ev.callbacks with
      | some cbs =>
        (setEv s1 eid { ev with callbacks := some (cbs ++ [Callback.resume pid]) }, none)
      | none => resumeInner G fuel s1 pid eid

/-- `Process._resume(event)`: sets `activeProcess = this`, runs the loop
(all exceptions are caught inside), and finally clears `activeProcess`. -/
def resumeProc (G : GenSem) (fuel : Nat) (s : SimState) (pid evId : Nat) :
    SimState × Option SimErr :=
  match resumeInner G fuel { s with active := some pid } pid evId with
  | (s1, e) => ({ s1 with active := none }, e)

/-! ## The driver (`src/core/Environment.ts`, `step` / `run`) and
`StopSimulation.callback` (`src/errors/StopSimulation.ts`) -/

/-- Dispatch one registered callback on the event being processed. -/
def runCallback (G : GenSem) (fuel : Nat) (s : SimState) (evId : Nat) :
    Callback → SimState × Option SimErr
  | .note t => ({ s with trace := s.trace ++ [t] }, none)
  | .raiseStr m => (s, some (.thrown (.str m)))
  | .stopSim =>
    -- StopSimulation.callback: `if (event.ok) throw new StopSimulation(event.value)
    -- else throw event._value`; the `ok` getter itself throws when not triggered.
    let ev := getEv s evId
    if ev.value = PENDING then (s, some (.thrown (.error "Value is not yet available")))
    else if ev.ok = some true then (s, some (.stopSimulation ev.value))
    else (s, some (.thrown ev.value))
  | .resume pid => resumeProc G fuel s pid evId
  | .check cid => condCheck s cid evId
  | .buildValue cid => (condBuildValue s cid, none)
  | .triggerGet => triggerGetLoop fuel s 0
  | .triggerPut => triggerPutLoop fuel s 0

/-- Fan a callback list in order; a raising callback aborts the fan and the
error propagates. -/
def runCallbacks (G : GenSem) (fuel : Nat) (s : SimState) (evId : Nat) :
    List Callback → SimState × Option SimErr
  | [] => (s, none)
  | cb :: rest =>
    match runCallback G fuel s evId cb with
    | (s1, some e) => (s1, some e)
    | (s1, none) => runCallbacks G fuel s1 evId rest

/-- `Environment.step()`: throws `EmptySchedule` on an empty queue; pops the
top item; advances `now` to its time; if the event's callback list is
released, returns; else fans every callback in order; finally, if the event
is not ok and not defused, throws its `_value`.  The source never releases
the callback list here. -/
def step (G : GenSem) (fuel : Nat) (s : SimState) : SimState × Option SimErr :=
  if s.queue.length = 0 then (s, some .emptySchedule)
  else
    match heapPop cmpQI s.queue with
    | none => (s, none)
    | some (item, q) =>
      let s1 := { s with queue := q, now := item.time }
      match (getEv s1 item.event).callbacks with
      | none => (s1, none)
      | some cbs =>
        match runCallbacks G fuel s1 item.event cbs with
        | (s2, some e) => (s2, some e)
        | (s2, none) =>
          let ev := getEv s2 item.event
          if ev.ok ≠ some true ∧ ev.defused = false then (s2, some (.thrown ev.value))
          else (s2, none)

/-- The `while (queue.size() > 0) step()` loop of `Environment.run`; any
error propagates (`catch (e) { throw e }`). -/
def runLoop (G : GenSem) : Nat → SimState → SimState × Option SimErr
  | 0, s => (s, some .outOfFuel)
  | fuel + 1, s =>
    if s.queue.length > 0 then
      match step G fuel s with
      | (s1, some e) => (s1, some e)
      | (s1, none) => runLoop G fuel s1
    else (s, none)

/-- The `until` argument of `Environment.run`. -/
inductive UntilArg where
  | noArg
  | num (t : Int)
  | ev (id : Nat)
  | invalid
deriving DecidableEq, Repr

/-- `Environment.run(until)`: a non-number non-Event argument throws; an
Event argument gets `StopSimulation.callback` pushed onto its callbacks (a
released list makes the `.push` crash); a numeric argument is not used at
all; then the step loop runs until the queue empties. -/
def run (G : GenSem) (fuel : Nat) (s : SimState) (u : UntilArg) : SimState × Option SimErr :=
  match u with
  | .invalid => (s, some (.thrown (.error "Invalid until argument")))
  | .noArg => runLoop G fuel s
  | .num _ => runLoop G fuel s
  | .ev id =>
    match (getEv s id).callbacks with
    | none => (s, some (.thrown (.error "TypeError: cannot push to null")))
    | some cbs =>
      runLoop G fuel (setEv s id { getEv s id with callbacks := some (cbs ++ [Callback.stopSim]) })

/-- A generator semantics for scenarios without processes. -/
def trivialGen : GenSem :=
  { next := fun _ _ => GenOut.retVal JSVal.null,
    throwIn := fun _ v => GenOut.throwOut v }

/-! ## Store lemmas -/

theorem getEv_setEv_eq (s : SimState) (i : Nat) (e : EventRec) :
    getEv (setEv s i e) i = e := by
  simp [getEv, setEv, List.lookup]

theorem getEv_setEv_ne (s : SimState) (i j : Nat) (e : EventRec) (h : j ≠ i) :
    getEv (setEv s i e) j = getEv s j := by
  simp [getEv, setEv, List.lookup, beq_false_of_ne h]

@[simp] theorem setEv_now (s : SimState) (i : Nat) (e : EventRec) : (setEv s i e).now = s.now := rfl
@[simp] theorem setEv_queue (s : SimState) (i : Nat) (e : EventRec) : (setEv s i e).queue = s.queue := rfl
@[simp] theorem setEv_eid (s : SimState) (i : Nat) (e : EventRec) : (setEv s i e).eid = s.eid := rfl
@[simp] theorem setEv_nextEv (s : SimState) (i : Nat) (e : EventRec) : (setEv s i e).nextEv = s.nextEv := rfl
@[simp] theorem setEv_active (s : SimState) (i : Nat) (e : EventRec) : (setEv s i e).active = s.active := rfl
@[simp] theorem setEv_gens (s : SimState) (i : Nat) (e : EventRec) : (setEv s i e).gens = s.gens := rfl
@[simp] theorem setEv_res (s : SimState) (i : Nat) (e : EventRec) : (setEv s i e).res = s.res := rfl
@[simp] theorem setEv_trace (s : SimState) (i : Nat) (e : EventRec) : (setEv s i e).trace = s.trace := rfl
@[simp] theorem setEv_acq (s : SimState) (i : Nat) (e : EventRec) : (setEv s i e).acq = s.acq := rfl
@[simp] theorem setEv_rel (s : SimState) (i : Nat) (e : EventRec) : (setEv s i e).rel = s.rel := rfl

theorem getEv_setEv (s : SimState) (i j : Nat) (e : EventRec) :
    getEv (setEv s i e) j = if j = i then e else getEv s j := by
  by_cases h : j = i
  · subst h; simp [getEv_setEv_eq]
  · simp [h, getEv_setEv_ne s i j e h]

@[simp] theorem schedule_now (s : SimState) (evId : Nat) (p : Priority) (d : Int) :
    (schedule s evId p d).now = s.now := rfl
@[simp] theorem schedule_queue (s : SimState) (evId : Nat) (p : Priority) (d : Int) :
    (schedule s evId p d).queue =
      heapPush cmpQI s.queue
        { time := s.now + d, priority := prioNum p, eid := s.eid, event := evId } := rfl
@[simp] theorem schedule_eid (s : SimState) (evId : Nat) (p : Priority) (d : Int) :
    (schedule s evId p d).eid = s.eid + 1 := rfl
@[simp] theorem schedule_nextEv (s : SimState) (evId : Nat) (p : Priority) (d : Int) :
    (schedule s evId p d).nextEv = s.nextEv := rfl
@[simp] theorem schedule_active (s : SimState) (evId : Nat) (p : Priority) (d : Int) :
    (schedule s evId p d).active = s.active := rfl
@[simp] theorem schedule_gens (s : SimState) (evId : Nat) (p : Priority) (d : Int) :
    (schedule s evId p d).gens = s.gens := rfl
@[simp] theorem schedule_res (s : SimState) (evId : Nat) (p : Priority) (d : Int) :
    (schedule s evId p d).res = s.res := rfl
@[simp] theorem schedule_trace (s : SimState) (evId : Nat) (p : Priority) (d : Int) :
    (schedule s evId p d).trace = s.trace := rfl
@[simp] theorem schedule_acq (s : SimState) (evId : Nat) (p : Priority) (d : Int) :
    (schedule s evId p d).acq = s.acq := rfl
@[simp] theorem schedule_rel (s : SimState) (evId : Nat) (p : Priority) (d : Int) :
    (schedule s evId p d).rel = s.rel := rfl

theorem getEv_schedule (s : SimState) (evId : Nat) (p : Priority) (d : Int) (j : Nat) :
    getEv (schedule s evId p d) j =
      if j = evId then { getEv s evId with scheduled := true } else getEv s j := by
  unfold schedule
  rw [getEv_setEv]
  rfl

@[simp] theorem allocEvent_now (s : SimState) (e : EventRec) : (allocEvent s e).1.now = s.now := rfl
@[simp] theorem allocEvent_queue (s : SimState) (e : EventRec) :
    (allocEvent s e).1.queue = s.queue := rfl
@[simp] theorem allocEvent_eid (s : SimState) (e : EventRec) : (allocEvent s e).1.eid = s.eid := rfl
@[simp] theorem allocEvent_nextEv (s : SimState) (e : EventRec) :
    (allocEvent s e).1.nextEv = s.nextEv + 1 := rfl
@[simp] theorem allocEvent_res (s : SimState) (e : EventRec) : (allocEvent s e).1.res = s.res := rfl
@[simp] theorem allocEvent_acq (s : SimState) (e : EventRec) : (allocEvent s e).1.acq = s.acq := rfl
@[simp] theorem allocEvent_rel (s : SimState) (e : EventRec) : (allocEvent s e).1.rel = s.rel := rfl
@[simp] theorem allocEvent_id (s : SimState) (e : EventRec) : (allocEvent s e).2 = s.nextEv := rfl

theorem getEv_allocEvent (s : SimState) (e : EventRec) (j : Nat) :
    getEv (allocEvent s e).1 j = if j = s.nextEv then e else getEv s j := by
  by_cases h : j = s.nextEv
  · subst h; simp [getEv, allocEvent, List.lookup]
  · simp only [h, if_false, getEv, allocEvent, List.lookup, beq_false_of_ne h]

@[simp] theorem setGen_now (s : SimState) (pid st : Nat) : (setGen s pid st).now = s.now := rfl
@[simp] theorem setGen_queue (s : SimState) (pid st : Nat) : (setGen s pid st).queue = s.queue := rfl
@[simp] theorem setGen_eid (s : SimState) (pid st : Nat) : (setGen s pid st).eid = s.eid := rfl
@[simp] theorem setGen_nextEv (s : SimState) (pid st : Nat) :
    (setGen s pid st).nextEv = s.nextEv := rfl
@[simp] theorem setGen_res (s : SimState) (pid st : Nat) : (setGen s pid st).res = s.res := rfl
@[simp] theorem setGen_evs (s : SimState) (pid st : Nat) : (setGen s pid st).evs = s.evs := rfl
@[simp] theorem setGen_acq (s : SimState) (pid st : Nat) : (setGen s pid st).acq = s.acq := rfl
@[simp] theorem setGen_rel (s : SimState) (pid st : Nat) : (setGen s pid st).rel = s.rel := rfl

theorem getEv_setGen (s : SimState) (pid st : Nat) (j : Nat) :
    getEv (setGen s pid st) j = getEv s j := rfl

/-! ## The global invariant

`Inv` collects what every state reachable through the public operations
satisfies: the queue is a binary heap for the comparator, its insertion
counters are bounded by `_eid` and pairwise distinct, the resource queues
hold validated (positive-amount) event ids below the allocator, the
capacity is positive, and the user count equals the ghost accounting
balance and respects the capacity. -/

structure Inv (s : SimState) : Prop where
  heap : IsHeapList cmpQI s.queue
  eidBound : ∀ it ∈ s.queue, it.eid < s.eid
  eidDistinct : List.Pairwise (fun a b : QueueItem => a.eid ≠ b.eid) s.queue
  idBound : ∀ r, s.res = some r →
    (∀ id ∈ r.getQueue, id < s.nextEv) ∧ (∀ id ∈ r.putQueue, id < s.nextEv)
  amtPos : ∀ r, s.res = some r →
    (∀ id ∈ r.getQueue, 0 < (getEv s id).amount) ∧
    (∀ id ∈ r.putQueue, 0 < (getEv s id).amount)
  capPos : ∀ r, s.res = some r → 0 < r.capacity
  users : ∀ r, s.res = some r →
    (r.users.length : Int) = s.acq - s.rel ∧ (r.users.length : Int) ≤ r.capacity

theorem inv_initState (t : Int) : Inv (initState t) := by
  constructor <;> simp [initState, IsHeapList]

theorem mem_heapPush (l : List QueueItem) (a x : QueueItem) :
    x ∈ heapPush cmpQI l a ↔ x = a ∨ x ∈ l := by
  have h := (heapPush_perm cmpQI l a).mem_iff (a := x)
  simpa using h

theorem pairwise_heapPush (l : List QueueItem) (a : QueueItem)
    (hl : List.Pairwise (fun a b : QueueItem => a.eid ≠ b.eid) l)
    (ha : ∀ x ∈ l, a.eid ≠ x.eid) :
    List.Pairwise (fun a b : QueueItem => a.eid ≠ b.eid) (heapPush cmpQI l a) := by
  have hperm := (heapPush_perm cmpQI l a).symm
  refine hperm.pairwise_iff ?_ |>.mp (List.Pairwise.cons ha hl)
  intro x y h
  exact (Ne.symm h)

theorem mem_of_heapPop (l : List QueueItem) (m : QueueItem) (q : List QueueItem)
    (h : heapPop cmpQI l = some (m, q)) : ∀ x ∈ q, x ∈ l := by
  intro x hx
  exact (heapPop_perm cmpQI l m q h).mem_iff.mpr (List.mem_cons_of_mem m hx)

theorem pairwise_of_heapPop (l : List QueueItem) (m : QueueItem) (q : List QueueItem)
    (hl : List.Pairwise (fun a b : QueueItem => a.eid ≠ b.eid) l)
    (h : heapPop cmpQI l = some (m, q)) :
    List.Pairwise (fun a b : QueueItem => a.eid ≠ b.eid) q := by
  have hperm := heapPop_perm cmpQI l m q h
  have : List.Pairwise (fun a b : QueueItem => a.eid ≠ b.eid) (m :: q) := by
    refine hperm.pairwise_iff ?_ |>.mp hl
    intro x y hxy
    exact (Ne.symm hxy)
  exact this.tail

theorem inv_schedule (s : SimState) (evId : Nat) (p : Priority) (d : Int)
    (h : Inv s) : Inv (schedule s evId p d) := by
  obtain ⟨hh, hb, hd, hib, hap, hcp, hu⟩ := h
  constructor
  · rw [schedule_queue]
    exact heapPush_isHeap cmpQI cmpQI_anti (fun a b c => cmpQI_trans) s.queue _ hh
  · intro it hit
    rw [schedule_queue] at hit
    rw [schedule_eid]
    rcases (mem_heapPush s.queue _ it).mp hit with h1 | h1
    · subst h1
      simp
    · exact Nat.lt_succ_of_lt (hb it h1)
  · rw [schedule_queue]
    refine pairwise_heapPush s.queue _ hd ?_
    intro x hx
    have := hb x hx
    simp only
    omega
  · intro r hr
    rw [schedule_res] at hr
    rw [schedule_nextEv]
    exact hib r hr
  · intro r hr
    rw [schedule_res] at hr
    obtain ⟨h1, h2⟩ := hap r hr
    constructor <;> intro id hid <;> rw [getEv_schedule] <;> split
    · rename_i he
      subst he
      exact h1 id hid
    · exact h1 id hid
    · rename_i he
      subst he
      exact h2 id hid
    · exact h2 id hid
  · intro r hr
    rw [schedule_res] at hr
    exact hcp r hr
  · intro r hr
    rw [schedule_res] at hr
    simpa using hu r hr

/-- Framing: the invariant only reads `queue`, `eid`, `res`, `nextEv`,
`evs`, `acq` and `rel`. -/
theorem inv_frame (s s' : SimState) (h : Inv s)
    (hq : s'.queue = s.queue) (he : s'.eid = s.eid) (hr : s'.res = s.res)
    (hn : s'.nextEv = s.nextEv) (hv : s'.evs = s.evs) (ha : s'.acq = s.acq)
    (hl : s'.rel = s.rel) : Inv s' := by
  obtain ⟨hh, hb, hd, hib, hap, hcp, hu⟩ := h
  have hg : ∀ j, getEv s' j = getEv s j := by
    intro j
    simp [getEv, hv]
  constructor
  · rw [hq]
    exact hh
  · rw [hq, he]
    exact hb
  · rw [hq]
    exact hd
  · rw [hr]
    intro r hrr
    rw [hn]
    exact hib r hrr
  · rw [hr]
    intro r hrr
    have := hap r hrr
    simp only [hg]
    exact this
  · rw [hr]
    exact hcp
  · rw [hr]
    intro r hrr
    rw [ha, hl]
    exact hu r hrr

/-- Updating an event without changing its `amount` preserves the invariant. -/
theorem inv_setEv_keepAmount (s : SimState) (i : Nat) (e : EventRec)
    (hamt : e.amount = (getEv s i).amount) (h : Inv s) : Inv (setEv s i e) := by
  obtain ⟨hh, hb, hd, hib, hap, hcp, hu⟩ := h
  constructor
  · exact hh
  · exact hb
  · exact hd
  · intro r hr
    exact hib r hr
  · intro r hr
    obtain ⟨h1, h2⟩ := hap r hr
    constructor <;> intro id hid <;> rw [getEv_setEv] <;> split
    · rename_i hei
      rw [hamt, ← hei]
      exact h1 id hid
    · exact h1 id hid
    · rename_i hei
      rw [hamt, ← hei]
      exact h2 id hid
    · exact h2 id hid
  · intro r hr
    exact hcp r hr
  · intro r hr
    exact hu r hr

theorem inv_allocEvent (s : SimState) (e : EventRec) (h : Inv s) :
    Inv (allocEvent s e).1 := by
  obtain ⟨hh, hb, hd, hib, hap, hcp, hu⟩ := h
  constructor
  · exact hh
  · exact hb
  · exact hd
  · intro r hr
    obtain ⟨h1, h2⟩ := hib r hr
    rw [allocEvent_nextEv]
    constructor <;> intro id hid
    · exact Nat.lt_succ_of_lt (h1 id hid)
    · exact Nat.lt_succ_of_lt (h2 id hid)
  · intro r hr
    obtain ⟨h1, h2⟩ := hap r hr
    obtain ⟨hb1, hb2⟩ := hib r hr
    constructor <;> intro id hid <;> rw [getEv_allocEvent] <;> split
    · rename_i hei
      exact absurd hei (by have := hb1 id hid; omega)
    · exact h1 id hid
    · rename_i hei
      exact absurd hei (by have := hb2 id hid; omega)
    · exact h2 id hid
  · intro r hr
    exact hcp r hr
  · intro r hr
    exact hu r hr

theorem inv_succeed (s : SimState) (id : Nat) (v : JSVal) (h : Inv s) :
    Inv (succeed s id v).1 := by
  unfold succeed
  dsimp only
  split
  · exact h
  · split
    · exact inv_setEv_keepAmount s id _ rfl h
    · exact inv_schedule _ id .NORMAL 0 (inv_setEv_keepAmount s id _ rfl h)

theorem inv_fail (s : SimState) (id : Nat) (v : JSVal) (h : Inv s) :
    Inv (fail s id v).1 := by
  unfold fail
  dsimp only
  split
  · exact h
  · split
    · exact h
    · split
      · exact inv_setEv_keepAmount s id _ rfl h
      · exact inv_schedule _ id .NORMAL 0 (inv_setEv_keepAmount s id _ rfl h)

theorem inv_trigger (s : SimState) (targetId srcId : Nat) (h : Inv s) :
    Inv (trigger s targetId srcId) := by
  unfold trigger
  dsimp only
  split
  · exact inv_setEv_keepAmount s targetId _ rfl h
  · exact inv_schedule _ targetId .NORMAL 0 (inv_setEv_keepAmount s targetId _ rfl h)

theorem inv_newEvent (s : SimState) (h : Inv s) : Inv (newEvent s).1 :=
  inv_allocEvent s defaultEvent h

theorem inv_newTimeout (s : SimState) (d : Int) (v : JSVal) (h : Inv s) :
    Inv (newTimeout s d v).1.1 := by
  unfold newTimeout
  dsimp only
  split
  · exact inv_allocEvent s defaultEvent h
  · exact inv_schedule _ _ .NORMAL d
      (inv_setEv_keepAmount _ _ _ rfl (inv_allocEvent s defaultEvent h))

theorem inv_newInitialize (s : SimState) (pid : Nat) (h : Inv s) :
    Inv (newInitialize s pid).1 :=
  inv_schedule _ _ .URGENT 0
    (inv_setEv_keepAmount _ _ _ rfl (inv_allocEvent s defaultEvent h))

theorem inv_gens (s : SimState) (g : List (Nat × Nat)) (h : Inv s) :
    Inv { s with gens := g } :=
  inv_frame s _ h rfl rfl rfl rfl rfl rfl rfl

theorem inv_active (s : SimState) (a : Option Nat) (h : Inv s) :
    Inv { s with active := a } :=
  inv_frame s _ h rfl rfl rfl rfl rfl rfl rfl

theorem inv_trace (s : SimState) (tr : List Nat) (h : Inv s) :
    Inv { s with trace := tr } :=
  inv_frame s _ h rfl rfl rfl rfl rfl rfl rfl

theorem inv_newProcess (s : SimState) (st : Nat) (h : Inv s) :
    Inv (newProcess s st).1 := by
  unfold newProcess
  exact inv_newInitialize _ _ (inv_gens _ _ (inv_allocEvent s defaultEvent h))

theorem inv_interrupt (s : SimState) (pid : Nat) (cause : String) (h : Inv s) :
    Inv (interrupt s pid cause) := by
  unfold interrupt
  dsimp only
  split
  · exact inv_schedule _ pid .NORMAL 0 (inv_setEv_keepAmount s pid _ rfl h)
  · exact h

theorem inv_condCheck (s : SimState) (condId childId : Nat) (h : Inv s) :
    Inv (condCheck s condId childId).1 := by
  unfold condCheck
  dsimp only
  split
  · exact h
  · have h1 : Inv (setEv s condId
        { getEv s condId with count := (getEv s condId).count + 1 }) :=
      inv_setEv_keepAmount s condId _ rfl h
    split
    · exact inv_fail _ condId _ (inv_setEv_keepAmount _ childId _ rfl h1)
    · split
      · exact inv_succeed _ condId _ h1
      · exact h1

theorem inv_condBuildValue (s : SimState) (condId : Nat) (h : Inv s) :
    Inv (condBuildValue s condId) := by
  unfold condBuildValue
  dsimp only
  split
  · exact inv_setEv_keepAmount s condId _ rfl h
  · exact h

theorem inv_initCondition (condId : Nat) :
    ∀ (children : List Nat) (s : SimState), Inv s → Inv (initCondition s condId children).1
  | [], s, h => h
  | child :: rest, s, h => by
    unfold initCondition
    dsimp only
    split
    · split
      · rename_i heq
        have := inv_condCheck s condId child h
        rw [heq] at this
        exact this
      · rename_i heq
        have hc := inv_condCheck s condId child h
        rw [heq] at hc
        exact inv_initCondition condId rest _ hc
    · exact inv_initCondition condId rest _ (inv_setEv_keepAmount s child _ rfl h)

theorem inv_newCondEvent (s : SimState) (ev : CondEval) (children : List Nat) (h : Inv s) :
    Inv (newCondEvent s ev children).1.1 := by
  unfold newCondEvent
  dsimp only
  have h1 := inv_allocEvent s { defaultEvent with evaluate := some ev, events := children } h
  split
  · split
    · rename_i heq
      have h2 := inv_initCondition
        (allocEvent s { defaultEvent with evaluate := some ev, events := children }).2 children
        (allocEvent s { defaultEvent with evaluate := some ev, events := children }).1 h1
      rw [heq] at h2
      exact h2
    · rename_i s2 heq
      have hi := inv_initCondition
        (allocEvent s { defaultEvent with evaluate := some ev, events := children }).2 children
        (allocEvent s { defaultEvent with evaluate := some ev, events := children }).1 h1
      rw [heq] at hi
      split
      · exact inv_setEv_keepAmount _ _ _ rfl hi
      · exact hi
  · exact h1

theorem inv_newResource (s : SimState) (c : Int) (h : Inv s) :
    Inv (newResource s c).1 := by
  unfold newResource
  dsimp only
  split
  · exact h
  · rename_i hc
    obtain ⟨hh, hb, hd, _, _, _, _⟩ := h
    constructor
    · exact hh
    · exact hb
    · exact hd
    · intro r hr
      simp only [Option.some.injEq] at hr
      subst hr
      simp
    · intro r hr
      simp only [Option.some.injEq] at hr
      subst hr
      simp
    · intro r hr
      simp only [Option.some.injEq] at hr
      subst hr
      simpa using by omega
    · intro r hr
      simp only [Option.some.injEq] at hr
      subst hr
      refine ⟨by simp, ?_⟩
      simp only [List.length_nil, Int.natCast_zero]
      omega

theorem inv_doGet (s : SimState) (evId : Nat)
    (hpos : 0 < (getEv s evId).amount) (h : Inv s) : Inv (doGet s evId).1.1 := by
  unfold doGet
  split
  · exact h
  · rename_i r hres
    dsimp only
    split
    · rename_i hguard
      apply inv_succeed
      obtain ⟨hh, hb, hd, hib, hap, hcp, hu⟩ := h
      constructor
      · exact hh
      · exact hb
      · exact hd
      · intro r' hr'
        simp only [Option.some.injEq] at hr'
        subst hr'
        exact hib r hres
      · intro r' hr'
        simp only [Option.some.injEq] at hr'
        subst hr'
        obtain ⟨h1, h2⟩ := hap r hres
        exact ⟨h1, h2⟩
      · intro r' hr'
        simp only [Option.some.injEq] at hr'
        subst hr'
        exact hcp r hres
      · intro r' hr'
        simp only [Option.some.injEq] at hr'
        subst hr'
        obtain ⟨h1, h2⟩ := hu r hres
        have hcast : ((getEv s evId).amount.toNat : Int) = (getEv s evId).amount :=
          Int.toNat_of_nonneg (by omega)
        constructor
        · simp only [List.length_append, List.length_replicate]
          push_cast
          omega
        · simp only [List.length_append, List.length_replicate]
          push_cast
          omega
    · exact h

theorem inv_doPut (s : SimState) (evId : Nat)
    (hpos : 0 < (getEv s evId).amount) (h : Inv s) : Inv (doPut s evId).1.1 := by
  unfold doPut
  split
  · exact h
  · rename_i r hres
    dsimp only
    split
    · rename_i hguard
      apply inv_succeed
      obtain ⟨hh, hb, hd, hib, hap, hcp, hu⟩ := h
      constructor
      · exact hh
      · exact hb
      · exact hd
      · intro r' hr'
        simp only [Option.some.injEq] at hr'
        subst hr'
        exact hib r hres
      · intro r' hr'
        simp only [Option.some.injEq] at hr'
        subst hr'
        exact hap r hres
      · intro r' hr'
        simp only [Option.some.injEq] at hr'
        subst hr'
        exact hcp r hres
      · intro r' hr'
        simp only [Option.some.injEq] at hr'
        subst hr'
        obtain ⟨h1, h2⟩ := hu r hres
        have hcast : ((getEv s evId).amount.toNat : Int) = (getEv s evId).amount :=
          Int.toNat_of_nonneg (by omega)
        constructor
        · simp only [List.length_take]
          push_cast
          omega
        · simp only [List.length_take]
          push_cast
          omega
    · exact h

theorem inv_eraseGet (s : SimState) (r : ResourceRec) (hres : s.res = some r) (i : Nat)
    (h : Inv s) : Inv { s with res := some { r with getQueue := r.getQueue.eraseIdx i } } := by
  obtain ⟨hh, hb, hd, hib, hap, hcp, hu⟩ := h
  constructor
  · exact hh
  · exact hb
  · exact hd
  · intro r' hr'
    simp only [Option.some.injEq] at hr'
    subst hr'
    obtain ⟨h1, h2⟩ := hib r hres
    exact ⟨fun id hid => h1 id ((List.eraseIdx_sublist r.getQueue i).subset hid), h2⟩
  · intro r' hr'
    simp only [Option.some.injEq] at hr'
    subst hr'
    obtain ⟨h1, h2⟩ := hap r hres
    exact ⟨fun id hid => h1 id ((List.eraseIdx_sublist r.getQueue i).subset hid), h2⟩
  · intro r' hr'
    simp only [Option.some.injEq] at hr'
    subst hr'
    exact hcp r hres
  · intro r' hr'
    simp only [Option.some.injEq] at hr'
    subst hr'
    exact hu r hres

theorem inv_erasePut (s : SimState) (r : ResourceRec) (hres : s.res = some r) (i : Nat)
    (h : Inv s) : Inv { s with res := some { r with putQueue := r.putQueue.eraseIdx i } } := by
  obtain ⟨hh, hb, hd, hib, hap, hcp, hu⟩ := h
  constructor
  · exact hh
  · exact hb
  · exact hd
  · intro r' hr'
    simp only [Option.some.injEq] at hr'
    subst hr'
    obtain ⟨h1, h2⟩ := hib r hres
    exact ⟨h1, fun id hid => h2 id ((List.eraseIdx_sublist r.putQueue i).subset hid)⟩
  · intro r' hr'
    simp only [Option.some.injEq] at hr'
    subst hr'
    obtain ⟨h1, h2⟩ := hap r hres
    exact ⟨h1, fun id hid => h2 id ((List.eraseIdx_sublist r.putQueue i).subset hid)⟩
  · intro r' hr'
    simp only [Option.some.injEq] at hr'
    subst hr'
    exact hcp r hres
  · intro r' hr'
    simp only [Option.some.injEq] at hr'
    subst hr'
    exact hu r hres

theorem inv_triggerGetLoop (fuel : Nat) :
    ∀ (s : SimState) (idx : Nat), Inv s → Inv (triggerGetLoop fuel s idx).1 := by
  induction fuel with
  | zero =>
    intro s idx h
    exact h
  | succ fuel ih =>
    intro s idx h
    unfold triggerGetLoop
    dsimp only
    split
    · exact h
    · rename_i r hres
      split
      · rename_i hidx
        have hmem : r.getQueue.get ⟨idx, hidx⟩ ∈ r.getQueue := List.get_mem ..
        have hpos : 0 < (getEv s (r.getQueue.get ⟨idx, hidx⟩)).amount :=
          (h.amtPos r hres).1 _ hmem
        have h1 := inv_doGet s (r.getQueue.get ⟨idx, hidx⟩) hpos h
        split
        · rename_i s1 e heq
          rw [heq] at h1
          exact h1
        · rename_i s1 proceed heq
          rw [heq] at h1
          split
          · exact h1
          · rename_i r1 hres1
            by_cases hst : (getEv s1 (r.getQueue.get ⟨idx, hidx⟩)).value ≠ PENDING
            · simp only [if_pos hst]
              have h2 := inv_eraseGet s1 r1 hres1 idx h1
              split
              · exact ih _ _ h2
              · exact h2
            · simp only [if_neg hst]
              split
              · exact ih _ _ h1
              · exact h1
      · exact h

theorem inv_triggerPutLoop (fuel : Nat) :
    ∀ (s : SimState) (idx : Nat), Inv s → Inv (triggerPutLoop fuel s idx).1 := by
  induction fuel with
  | zero =>
    intro s idx h
    exact h
  | succ fuel ih =>
    intro s idx h
    unfold triggerPutLoop
    dsimp only
    split
    · exact h
    · rename_i r hres
      split
      · rename_i hidx
        have hmem : r.putQueue.get ⟨idx, hidx⟩ ∈ r.putQueue := List.get_mem ..
        have hpos : 0 < (getEv s (r.putQueue.get ⟨idx, hidx⟩)).amount :=
          (h.amtPos r hres).2 _ hmem
        have h1 := inv_doPut s (r.putQueue.get ⟨idx, hidx⟩) hpos h
        split
        · rename_i s1 e heq
          rw [heq] at h1
          exact h1
        · rename_i s1 proceed heq
          rw [heq] at h1
          split
          · exact h1
          · rename_i r1 hres1
            by_cases hst : (getEv s1 (r.putQueue.get ⟨idx, hidx⟩)).value ≠ PENDING
            · simp only [if_pos hst]
              have h2 := inv_erasePut s1 r1 hres1 idx h1
              split
              · exact ih _ _ h2
              · exact h2
            · simp only [if_neg hst]
              split
              · exact ih _ _ h1
              · exact h1
      · exact h

theorem inv_setEv_outside (s : SimState) (i : Nat) (e : EventRec)
    (hout : ∀ r, s.res = some r → i ∉ r.getQueue ∧ i ∉ r.putQueue)
    (h : Inv s) : Inv (setEv s i e) := by
  obtain ⟨hh, hb, hd, hib, hap, hcp, hu⟩ := h
  constructor
  · exact hh
  · exact hb
  · exact hd
  · intro r hr
    exact hib r hr
  · intro r hr
    obtain ⟨h1, h2⟩ := hap r hr
    obtain ⟨ho1, ho2⟩ := hout r hr
    constructor <;> intro id hid <;> rw [getEv_setEv] <;> split
    · rename_i hei
      subst hei
      exact absurd hid ho1
    · exact h1 id hid
    · rename_i hei
      subst hei
      exact absurd hid ho2
    · exact h2 id hid
  · intro r hr
    exact hcp r hr
  · intro r hr
    exact hu r hr

theorem inv_pushPut (s : SimState) (r : ResourceRec) (hres : s.res = some r) (id : Nat)
    (hlt : id < s.nextEv) (hamt : 0 < (getEv s id).amount) (h : Inv s) :
    Inv { s with res := some { r with putQueue := r.putQueue ++ [id] } } := by
  obtain ⟨hh, hb, hd, hib, hap, hcp, hu⟩ := h
  constructor
  · exact hh
  · exact hb
  · exact hd
  · intro r' hr'
    simp only [Option.some.injEq] at hr'
    subst hr'
    obtain ⟨h1, h2⟩ := hib r hres
    refine ⟨h1, fun m hm => ?_⟩
    rcases List.mem_append.mp hm with hm | hm
    · exact h2 m hm
    · simp only [List.mem_singleton] at hm
      subst hm
      exact hlt
  · intro r' hr'
    simp only [Option.some.injEq] at hr'
    subst hr'
    obtain ⟨h1, h2⟩ := hap r hres
    refine ⟨h1, fun m hm => ?_⟩
    rcases List.mem_append.mp hm with hm | hm
    · exact h2 m hm
    · simp only [List.mem_singleton] at hm
      subst hm
      exact hamt
  · intro r' hr'
    simp only [Option.some.injEq] at hr'
    subst hr'
    exact hcp r hres
  · intro r' hr'
    simp only [Option.some.injEq] at hr'
    subst hr'
    exact hu r hres

theorem inv_pushGet (s : SimState) (r : ResourceRec) (hres : s.res = some r) (id : Nat)
    (hlt : id < s.nextEv) (hamt : 0 < (getEv s id).amount) (h : Inv s) :
    Inv { s with res := some { r with getQueue := r.getQueue ++ [id] } } := by
  obtain ⟨hh, hb, hd, hib, hap, hcp, hu⟩ := h
  constructor
  · exact hh
  · exact hb
  · exact hd
  · intro r' hr'
    simp only [Option.some.injEq] at hr'
    subst hr'
    obtain ⟨h1, h2⟩ := hib r hres
    refine ⟨fun m hm => ?_, h2⟩
    rcases List.mem_append.mp hm with hm | hm
    · exact h1 m hm
    · simp only [List.mem_singleton] at hm
      subst hm
      exact hlt
  · intro r' hr'
    simp only [Option.some.injEq] at hr'
    subst hr'
    obtain ⟨h1, h2⟩ := hap r hres
    refine ⟨fun m hm => ?_, h2⟩
    rcases List.mem_append.mp hm with hm | hm
    · exact h1 m hm
    · simp only [List.mem_singleton] at hm
      subst hm
      exact hamt
  · intro r' hr'
    simp only [Option.some.injEq] at hr'
    subst hr'
    exact hcp r hres
  · intro r' hr'
    simp only [Option.some.injEq] at hr'
    subst hr'
    exact hu r hres

theorem inv_triggerPutLoop_eq (fuel idx : Nat) (s : SimState) (p : SimState × Option SimErr)
    (heq : triggerPutLoop fuel s idx = p) (h : Inv s) : Inv p.1 := by
  rw [← heq]
  exact inv_triggerPutLoop fuel s idx h

theorem inv_triggerGetLoop_eq (fuel idx : Nat) (s : SimState) (p : SimState × Option SimErr)
    (heq : triggerGetLoop fuel s idx = p) (h : Inv s) : Inv p.1 := by
  rw [← heq]
  exact inv_triggerGetLoop fuel s idx h

theorem inv_newPutResource (fuel : Nat) (s : SimState) (amount : Int) (h : Inv s) :
    Inv (newPutResource fuel s amount).1.1 := by
  unfold newPutResource
  dsimp only
  have h1 := inv_allocEvent s defaultEvent h
  split
  · exact h1
  · rename_i hamt
    split
    · exact h1
    · rename_i r hres
      have hout : ∀ r', (allocEvent s defaultEvent).1.res = some r' →
          s.nextEv ∉ r'.getQueue ∧ s.nextEv ∉ r'.putQueue := by
        intro r' hr'
        rw [allocEvent_res] at hr'
        obtain ⟨hg, hp⟩ := h.idBound r' hr'
        constructor
        · intro hm
          exact absurd (hg _ hm) (by omega)
        · intro hm
          exact absurd (hp _ hm) (by omega)
      have h2 := inv_setEv_outside (allocEvent s defaultEvent).1 s.nextEv
        { getEv (allocEvent s defaultEvent).1 s.nextEv with
            amount := amount, proc := (allocEvent s defaultEvent).1.active } hout h1
      have hres2 : (setEv (allocEvent s defaultEvent).1 s.nextEv
          { getEv (allocEvent s defaultEvent).1 s.nextEv with
              amount := amount, proc := (allocEvent s defaultEvent).1.active }).res = some r := by
        rw [setEv_res, allocEvent_res]
        exact hres
      have h3 := inv_pushPut _ r hres2 s.nextEv (by simp) (by
        rw [getEv_setEv_eq]
        show 0 < amount
        omega) h2
      exact inv_triggerPutLoop fuel _ 0 (inv_setEv_keepAmount _ s.nextEv _ rfl h3)

theorem inv_newGetResource (fuel : Nat) (s : SimState) (amount : Int) (h : Inv s) :
    Inv (newGetResource fuel s amount).1.1 := by
  unfold newGetResource
  dsimp only
  have h1 := inv_allocEvent s defaultEvent h
  split
  · exact h1
  · rename_i hamt
    split
    · exact h1
    · rename_i r hres
      have hout : ∀ r', (allocEvent s defaultEvent).1.res = some r' →
          s.nextEv ∉ r'.getQueue ∧ s.nextEv ∉ r'.putQueue := by
        intro r' hr'
        rw [allocEvent_res] at hr'
        obtain ⟨hg, hp⟩ := h.idBound r' hr'
        constructor
        · intro hm
          exact absurd (hg _ hm) (by omega)
        · intro hm
          exact absurd (hp _ hm) (by omega)
      have h2 := inv_setEv_outside (allocEvent s defaultEvent).1 s.nextEv
        { getEv (allocEvent s defaultEvent).1 s.nextEv with
            amount := amount, proc := (allocEvent s defaultEvent).1.active } hout h1
      have hres2 : (setEv (allocEvent s defaultEvent).1 s.nextEv
          { getEv (allocEvent s defaultEvent).1 s.nextEv with
              amount := amount, proc := (allocEvent s defaultEvent).1.active }).res = some r := by
        rw [setEv_res, allocEvent_res]
        exact hres
      have h3 := inv_pushGet _ r hres2 s.nextEv (by simp) (by
        rw [getEv_setEv_eq]
        show 0 < amount
        omega) h2
      split
      · rename_i s5 e heq
        exact inv_triggerPutLoop_eq fuel 0 _ _ heq
          (inv_setEv_keepAmount _ s.nextEv _ rfl h3)
      · rename_i s5 heq
        exact inv_triggerGetLoop fuel s5 0 (inv_triggerPutLoop_eq fuel 0 _ _ heq
          (inv_setEv_keepAmount _ s.nextEv _ rfl h3))

theorem inv_setGen (s : SimState) (pid st : Nat) (h : Inv s) : Inv (setGen s pid st) :=
  inv_frame s _ h rfl rfl rfl rfl rfl rfl rfl

theorem inv_resumeInner (G : GenSem) (fuel : Nat) :
    ∀ (s : SimState) (pid evId : Nat), Inv s → Inv (resumeInner G fuel s pid evId).1 := by
  induction fuel with
  | zero =>
    intro s pid evId h
    exact h
  | succ fuel ih =>
    intro s pid evId h
    unfold resumeInner
    dsimp only
    split
    · exact inv_setEv_keepAmount _ _ _ rfl h
    · exact inv_schedule _ _ _ _ (inv_setEv_keepAmount _ _ _ rfl h)
    · rename_i v st heq
      exact inv_schedule _ _ _ _
        (inv_setEv_keepAmount _ _ _ rfl (inv_setGen s pid st h))
    · rename_i d v st heq
      have hg := inv_setGen s pid st h
      split
      · rename_i s2 tid heq
        have h2 := inv_newTimeout (setGen s pid st) d v hg
        rw [heq] at h2
        exact inv_schedule _ _ _ _ (inv_setEv_keepAmount _ _ _ rfl h2)
      · rename_i s2 tid heq
        have h2 := inv_newTimeout (setGen s pid st) d v hg
        rw [heq] at h2
        split
        · exact inv_setEv_keepAmount _ _ _ rfl h2
        · exact ih _ _ _ h2
    · rename_i eid st heq
      have hg := inv_setGen s pid st h
      split
      · exact inv_setEv_keepAmount _ _ _ rfl hg
      · exact ih _ _ _ hg

theorem inv_resumeProc (G : GenSem) (fuel : Nat) (s : SimState) (pid evId : Nat)
    (h : Inv s) : Inv (resumeProc G fuel s pid evId).1 := by
  unfold resumeProc
  exact inv_active _ none
    (inv_resumeInner G fuel { s with active := some pid } pid evId (inv_active s (some pid) h))

theorem inv_runCallback (G : GenSem) (fuel : Nat) (s : SimState) (evId : Nat)
    (cb : Callback) (h : Inv s) : Inv (runCallback G fuel s evId cb).1 := by
  cases cb with
  | note t => exact inv_trace s _ h
  | raiseStr m => exact h
  | stopSim =>
    unfold runCallback
    dsimp only
    split
    · exact h
    · split
      · exact h
      · exact h
  | resume pid => exact inv_resumeProc G fuel s pid evId h
  | check cid => exact inv_condCheck s cid evId h
  | buildValue cid => exact inv_condBuildValue s cid h
  | triggerGet => exact inv_triggerGetLoop fuel s 0 h
  | triggerPut => exact inv_triggerPutLoop fuel s 0 h

theorem inv_runCallbacks (G : GenSem) (fuel : Nat) (evId : Nat) :
    ∀ (cbs : List Callback) (s : SimState), Inv s →
      Inv (runCallbacks G fuel s evId cbs).1
  | [], s, h => h
  | cb :: rest, s, h => by
    unfold runCallbacks
    have h1 := inv_runCallback G fuel s evId cb h
    split
    · rename_i s1 e heq
      rw [heq] at h1
      exact h1
    · rename_i s1 heq
      rw [heq] at h1
      exact inv_runCallbacks G fuel evId rest s1 h1

theorem inv_heapPopState (s : SimState) (item : QueueItem) (q : List QueueItem) (t : Int)
    (heq : heapPop cmpQI s.queue = some (item, q)) (h : Inv s) :
    Inv { s with queue := q, now := t } := by
  obtain ⟨hh, hb, hd, hib, hap, hcp, hu⟩ := h
  constructor
  · exact heapPop_isHeap cmpQI cmpQI_anti (fun a b c => cmpQI_trans) s.queue item q hh heq
  · intro it hit
    exact hb it (mem_of_heapPop s.queue item q heq it hit)
  · exact pairwise_of_heapPop s.queue item q hd heq
  · intro r hr
    exact hib r hr
  · intro r hr
    exact hap r hr
  · intro r hr
    exact hcp r hr
  · intro r hr
    exact hu r hr

theorem inv_step (G : GenSem) (fuel : Nat) (s : SimState) (h : Inv s) :
    Inv (step G fuel s).1 := by
  unfold step
  dsimp only
  split
  · exact h
  · split
    · exact h
    · rename_i item q heq
      have h1 := inv_heapPopState s item q item.time heq h
      split
      · exact h1
      · rename_i cbs hcbs
        have h2 := inv_runCallbacks G fuel item.event cbs _ h1
        split
        · rename_i s2 e heq2
          rw [heq2] at h2
          exact h2
        · rename_i s2 heq2
          rw [heq2] at h2
          split
          · exact h2
          · exact h2

theorem inv_runLoop (G : GenSem) :
    ∀ (fuel : Nat) (s : SimState), Inv s → Inv (runLoop G fuel s).1
  | 0, s, h => h
  | fuel + 1, s, h => by
    unfold runLoop
    split
    · have h1 := inv_step G fuel s h
      split
      · rename_i s1 e heq
        rw [heq] at h1
        exact h1
      · rename_i s1 heq
        rw [heq] at h1
        exact inv_runLoop G fuel s1 h1
    · exact h

theorem inv_run (G : GenSem) (fuel : Nat) (s : SimState) (u : UntilArg) (h : Inv s) :
    Inv (run G fuel s u).1 := by
  unfold run
  cases u with
  | invalid => exact h
  | noArg => exact inv_runLoop G fuel s h
  | num t => exact inv_runLoop G fuel s h
  | ev id =>
    dsimp only
    split
    · exact h
    · exact inv_runLoop G fuel _ (inv_setEv_keepAmount _ _ _ rfl h)

/-- States reachable from a fresh `Environment` through the library's
public operations (event construction, triggering, scheduling, resource
requests/releases, stepping and running). -/
inductive Reached (G : GenSem) : SimState → Prop where
  | init (t : Int) : Reached G (initState t)
  | mkEvent {s : SimState} : Reached G s → Reached G (newEvent s).1
  | mkCondEvent {s : SimState} (ev : CondEval) (children : List Nat) :
      Reached G s → Reached G (newCondEvent s ev children).1.1
  | mkTimeout {s : SimState} (d : Int) (v : JSVal) :
      Reached G s → Reached G (newTimeout s d v).1.1
  | mkProcess {s : SimState} (st : Nat) : Reached G s → Reached G (newProcess s st).1
  | doInterrupt {s : SimState} (pid : Nat) (cause : String) :
      Reached G s → Reached G (interrupt s pid cause)
  | doSucceed {s : SimState} (id : Nat) (v : JSVal) :
      Reached G s → Reached G (succeed s id v).1
  | doFail {s : SimState} (id : Nat) (v : JSVal) :
      Reached G s → Reached G (fail s id v).1
  | doTrigger {s : SimState} (t src : Nat) : Reached G s → Reached G (trigger s t src)
  | doSchedule {s : SimState} (id : Nat) (p : Priority) (d : Int) :
      Reached G s → Reached G (schedule s id p d)
  | mkResource {s : SimState} (c : Int) : Reached G s → Reached G (newResource s c).1
  | doRequest {s : SimState} (fuel : Nat) (amt : Int) :
      Reached G s → Reached G (newGetResource fuel s amt).1.1
  | doRelease {s : SimState} (fuel : Nat) (amt : Int) :
      Reached G s → Reached G (newPutResource fuel s amt).1.1
  | doStep {s : SimState} (fuel : Nat) : Reached G s → Reached G (step G fuel s).1
  | doRun {s : SimState} (fuel : Nat) (u : UntilArg) :
      Reached G s → Reached G (run G fuel s u).1

/-- Every reachable state satisfies the global invariant. -/
theorem inv_reached (G : GenSem) (s : SimState) (h : Reached G s) : Inv s := by
  induction h with
  | init t => exact inv_initState t
  | mkEvent _ ih => exact inv_newEvent _ ih
  | mkCondEvent ev children _ ih => exact inv_newCondEvent _ ev children ih
  | mkTimeout d v _ ih => exact inv_newTimeout _ d v ih
  | mkProcess st _ ih => exact inv_newProcess _ st ih
  | doInterrupt pid cause _ ih => exact inv_interrupt _ pid cause ih
  | doSucceed id v _ ih => exact inv_succeed _ id v ih
  | doFail id v _ ih => exact inv_fail _ id v ih
  | doTrigger t src _ ih => exact inv_trigger _ t src ih
  | doSchedule id p d _ ih => exact inv_schedule _ id p d ih
  | mkResource c _ ih => exact inv_newResource _ c ih
  | doRequest fuel amt _ ih => exact inv_newGetResource fuel _ amt ih
  | doRelease fuel amt _ ih => exact inv_newPutResource fuel _ amt ih
  | doStep fuel _ ih => exact inv_step G fuel _ ih
  | doRun fuel u _ ih => exact inv_run G fuel _ u ih

theorem heapPop_head {T : Type} [Inhabited T] (cmp : T → T → Int) (l : List T) (m : T)
    (q : List T) (h : heapPop cmp l = some (m, q)) : m = nth l 0 ∧ 0 < l.length := by
  unfold heapPop at h
  by_cases h0 : l.length = 0
  · simp [h0] at h
  · simp only [if_neg h0] at h
    constructor
    · split at h <;> simp only [Option.some.injEq, Prod.mk.injEq] at h <;> exact h.1.symm
    · omega

/-- The item `heapPop` removes from a well-formed heap is no greater, under
the comparator, than any item left in the heap. -/
theorem heapPop_min (l : List QueueItem) (m : QueueItem) (q : List QueueItem)
    (hheap : IsHeapList cmpQI l) (h : heapPop cmpQI l = some (m, q)) :
    ∀ x ∈ q, cmpQI m x ≤ 0 := by
  intro x hx
  obtain ⟨hm, hlen⟩ := heapPop_head cmpQI l m q h
  have hxl : x ∈ l := mem_of_heapPop l m q h x hx
  obtain ⟨i, hi, hix⟩ := List.mem_iff_getElem.mp hxl
  have := isHeap_root_min cmpQI cmpQI_anti (fun a b c => cmpQI_trans) l hheap i hi
  rw [hm, nth_eq_getElem l i hi, hix] at *
  exact this

theorem cmpQI_ne_zero (a b : QueueItem) (h : a.eid ≠ b.eid) : cmpQI a b ≠ 0 := by
  unfold cmpQI
  by_cases h1 : a.time = b.time <;> by_cases h2 : a.priority = b.priority <;>
    simp [h1, h2] <;> omega

/-- With pairwise-distinct insertion counters, the popped item strictly
precedes everything left in the heap. -/
theorem heapPop_strict_min (l : List QueueItem) (m : QueueItem) (q : List QueueItem)
    (hheap : IsHeapList cmpQI l)
    (hdist : List.Pairwise (fun a b : QueueItem => a.eid ≠ b.eid) l)
    (h : heapPop cmpQI l = some (m, q)) :
    ∀ x ∈ q, cmpQI m x < 0 := by
  intro x hx
  have hle := heapPop_min l m q hheap h x hx
  have hperm := heapPop_perm cmpQI l m q h
  have hpw : List.Pairwise (fun a b : QueueItem => a.eid ≠ b.eid) (m :: q) := by
    refine hperm.pairwise_iff ?_ |>.mp hdist
    intro a b hab
    exact (Ne.symm hab)
  have hne : m.eid ≠ x.eid := (List.pairwise_cons.mp hpw).1 x hx
  have := cmpQI_ne_zero m x hne
  omega

/-! ## Claim theorems -/

/-- C2: for every sequence of schedule calls followed by step calls (any
reachable state), each step pops — via the heap's `pop`, which `step`
consumes — a scheduled item that is minimal in the lexicographic order
(earlier `time` first, URGENT = 0 before NORMAL = 1 at equal time, lower
insertion sequence `eid` at equal time and priority class): no item left in
the queue strictly precedes the popped one. -/
theorem C2_step_pops_lex_minimal (G : GenSem) (s : SimState) (hr : Reached G s)
    (item : QueueItem) (q : List QueueItem)
    (hpop : heapPop cmpQI s.queue = some (item, q)) :
    ∀ x ∈ q, ¬ lexLt x item := by
  intro x hx hlt
  have hheap := (inv_reached G s hr).heap
  have hle := heapPop_min s.queue item q hheap hpop x hx
  have h1 := (cmpQI_neg_iff_lexLt x item).mpr hlt
  have h2 := cmpQI_anti item x
  omega

def c2State : SimState :=
  schedule (schedule (newEvent (initState 0)).1 0 Priority.NORMAL 5) 0 Priority.NORMAL 3

theorem C2_step_pops_lex_minimal_witness :
    heapPop cmpQI c2State.queue =
      some (⟨3, 1, 1, 0⟩, [⟨5, 1, 0, 0⟩]) ∧
    ∀ x ∈ [(⟨5, 1, 0, 0⟩ : QueueItem)], ¬ lexLt x ⟨3, 1, 1, 0⟩ :=
  ⟨by decide,
    C2_step_pops_lex_minimal trivialGen c2State
      (Reached.doSchedule 0 Priority.NORMAL 3
        (Reached.doSchedule 0 Priority.NORMAL 5
          (Reached.mkEvent (Reached.init 0))))
      ⟨3, 1, 1, 0⟩ [⟨5, 1, 0, 0⟩] (by decide)⟩

/-- C10: event processing is deterministic.  The queue comparator never
compares two items with distinct insertion counters as equal, it is
antisymmetric and transitive — a strict total order on the items the
Environment ever enqueues — and consequently, on every reachable state
(whose queued items carry pairwise-distinct counters), the popped item is
the unique strict minimum of the queue, so runs performing the same
schedule calls pop items in the same order. -/
theorem C10_comparator_strict_total_order :
    (∀ a b : QueueItem, a.eid ≠ b.eid → cmpQI a b ≠ 0) ∧
    (∀ a b : QueueItem, cmpQI a b = -cmpQI b a) ∧
    (∀ a b c : QueueItem, cmpQI a b ≤ 0 → cmpQI b c ≤ 0 → cmpQI a c ≤ 0) ∧
    (∀ (G : GenSem) (s : SimState) (item : QueueItem) (q : List QueueItem),
      Reached G s → heapPop cmpQI s.queue = some (item, q) →
      ∀ x ∈ q, cmpQI item x < 0) := by
  refine ⟨cmpQI_ne_zero, cmpQI_anti, fun a b c => cmpQI_trans, ?_⟩
  intro G s item q hr hpop x hx
  have hinv := inv_reached G s hr
  exact heapPop_strict_min s.queue item q hinv.heap hinv.eidDistinct hpop x hx

def c10State : SimState :=
  schedule (schedule (newEvent (initState 0)).1 0 Priority.URGENT 5) 0 Priority.NORMAL 5

theorem C10_comparator_strict_total_order_witness :
    cmpQI ⟨0, 0, 0, 0⟩ ⟨0, 0, 1, 0⟩ ≠ 0 ∧
    ∀ x ∈ [(⟨5, 1, 1, 0⟩ : QueueItem)], cmpQI ⟨5, 0, 0, 0⟩ x < 0 :=
  ⟨C10_comparator_strict_total_order.1 ⟨0, 0, 0, 0⟩ ⟨0, 0, 1, 0⟩ (by decide),
    C10_comparator_strict_total_order.2.2.2 trivialGen c10State ⟨5, 0, 0, 0⟩
      [⟨5, 1, 1, 0⟩]
      (Reached.doSchedule 0 Priority.NORMAL 5
        (Reached.doSchedule 0 Priority.URGENT 5
          (Reached.mkEvent (Reached.init 0))))
      (by decide)⟩

/-- C5: for every Resource created with positive capacity, after any
sequence of request/release operations and steps (any reachable state),
the user count (`users.length`) equals the total acquired minus the total
released (the ghost sums incremented exactly when `_doGet`/`_doPut`
succeed), stays between `0` and the capacity, and `_doGet` succeeds exactly
when `capacity - users ≥ amount` while `_doPut` succeeds exactly when
`users ≥ amount`. -/
theorem C5_resource_accounting :
    (∀ (G : GenSem) (s : SimState) (r : ResourceRec), Reached G s → s.res = some r →
      (r.users.length : Int) = s.acq - s.rel ∧
      0 ≤ (r.users.length : Int) ∧ (r.users.length : Int) ≤ r.capacity) ∧
    (∀ (s : SimState) (r : ResourceRec) (evId : Nat), s.res = some r →
      ((doGet s evId).1.2 = true ↔ r.capacity - (r.users.length : Int) ≥ (getEv s evId).amount)) ∧
    (∀ (s : SimState) (r : ResourceRec) (evId : Nat), s.res = some r →
      ((doPut s evId).1.2 = true ↔ (r.users.length : Int) ≥ (getEv s evId).amount)) := by
  refine ⟨?_, ?_, ?_⟩
  · intro G s r hr hres
    obtain ⟨h1, h2⟩ := (inv_reached G s hr).users r hres
    exact ⟨h1, Int.natCast_nonneg _, h2⟩
  · intro s r evId hres
    unfold doGet
    rw [hres]
    dsimp only
    split
    · rename_i hguard
      simpa using hguard
    · rename_i hguard
      simpa using hguard
  · intro s r evId hres
    unfold doPut
    rw [hres]
    dsimp only
    split
    · rename_i hguard
      simpa using hguard
    · rename_i hguard
      simpa using hguard

def c5State : SimState := (newGetResource 20 (newResource (initState 0) 2).1 1).1.1

theorem C5_resource_accounting_witness :
    (∃ r : ResourceRec, c5State.res = some r ∧
      (r.users.length : Int) = c5State.acq - c5State.rel ∧
      (r.users.length : Int) ≤ r.capacity) ∧
    ((doGet c5State 1).1.2 = true ↔
      (2 : Int) - 1 ≥ (getEv c5State 1).amount) := by
  constructor
  · refine ⟨{ capacity := 2, users := [1], putQueue := [], getQueue := [] }, by decide, ?_⟩
    have h := C5_resource_accounting.1 trivialGen c5State
      { capacity := 2, users := [1], putQueue := [], getQueue := [] }
      (Reached.doRequest 20 1 (Reached.mkResource 2 (Reached.init 0)))
      (by decide)
    exact ⟨h.1, h.2.2⟩
  · exact C5_resource_accounting.2.1 c5State
      { capacity := 2, users := [1], putQueue := [], getQueue := [] } 1 (by decide)

/-- C9: `Event.succeed(v)` makes `triggered` true for every `v` other than
the string `'PENDING'`; calling `succeed` with exactly `'PENDING'` leaves
the event reporting `triggered = false` (and raises no error), and a later
`succeed` — or a later `fail` with an `Error` value — then proceeds without
an already-triggered error, because the pending state is represented by the
`_value` field equalling `'PENDING'`. -/
theorem succeed_value_of_pending (s : SimState) (id : Nat) (w : JSVal)
    (hpend : (getEv s id).value = PENDING) :
    (getEv (succeed s id w).1 id).value = w := by
  unfold succeed
  rw [if_neg (by simp [hpend])]
  dsimp only
  split
  · rw [getEv_setEv_eq]
  · rw [getEv_schedule]
    simp [getEv_setEv_eq]

theorem succeed_err_of_pending (s : SimState) (id : Nat) (w : JSVal)
    (hpend : (getEv s id).value = PENDING) : (succeed s id w).2 = none := by
  unfold succeed
  rw [if_neg (by simp [hpend])]
  dsimp only
  split <;> rfl

theorem fail_err_of_pending (s : SimState) (id : Nat) (m : String)
    (hpend : (getEv s id).value = PENDING) : (fail s id (JSVal.error m)).2 = none := by
  unfold fail
  rw [if_neg (by simp [hpend]), if_neg (by simp [isErrorVal])]
  dsimp only
  split <;> rfl

theorem C9_pending_sentinel (s : SimState) (id : Nat) (v : JSVal)
    (hpend : (getEv s id).value = PENDING) :
    (v ≠ PENDING → triggered (succeed s id v).1 id = true) ∧
    triggered (succeed s id PENDING).1 id = false ∧
    (succeed s id PENDING).2 = none ∧
    (∀ w : JSVal, (succeed (succeed s id PENDING).1 id w).2 = none) ∧
    (∀ m : String, (fail (succeed s id PENDING).1 id (JSVal.error m)).2 = none) := by
  refine ⟨?_, ?_, succeed_err_of_pending s id PENDING hpend, ?_, ?_⟩
  · intro hv
    unfold triggered
    rw [succeed_value_of_pending s id v hpend]
    simpa using hv
  · unfold triggered
    rw [succeed_value_of_pending s id PENDING hpend]
    simp
  · intro w
    exact succeed_err_of_pending _ id w (succeed_value_of_pending s id PENDING hpend)
  · intro m
    exact fail_err_of_pending _ id m (succeed_value_of_pending s id PENDING hpend)

theorem C9_pending_sentinel_witness :
    ((getEv (newEvent (initState 0)).1 0).value = PENDING) ∧
    triggered (succeed (newEvent (initState 0)).1 0 (JSVal.num 7)).1 0 = true ∧
    triggered (succeed (newEvent (initState 0)).1 0 PENDING).1 0 = false :=
  ⟨by decide,
    (C9_pending_sentinel (newEvent (initState 0)).1 0 (JSVal.num 7) (by decide)).1
      (by decide),
    (C9_pending_sentinel (newEvent (initState 0)).1 0 (JSVal.num 7) (by decide)).2.1⟩

/-! C1 -/

def c1NumState : SimState :=
  let s1 := (newEvent (initState 0)).1
  let s2 := (newEvent s1).1
  let s3 := setEv s2 0 { getEv s2 0 with ok := some true }
  let s4 := setEv s3 1 { getEv s3 1 with ok := some true }
  schedule (schedule s4 0 Priority.NORMAL 5) 1 Priority.NORMAL 15

def c1EvState : SimState :=
  let s1 := (newEvent (initState 0)).1
  let s2 := (newEvent s1).1
  let s3 := (newEvent s2).1
  let s4 := setEv s3 0 { getEv s3 0 with ok := some true }
  let s5 := setEv s4 1 { getEv s4 1 with ok := some true, value := JSVal.num 42 }
  let s6 := setEv s5 2 { getEv s5 2 with ok := some true }
  schedule (schedule (schedule s6 0 Priority.NORMAL 5) 1 Priority.NORMAL 10) 2 Priority.NORMAL 15

/-- C1 counterexample: with events scheduled at times 5 and 15,
`run(until = 5)` does not stop at time 5 — no sentinel is installed for a
numeric `until` — and instead drains the whole queue, returning normally
with `now = 15 ≠ 5`. -/
theorem C1_counterexample :
    (run trivialGen 10 c1NumState (UntilArg.num 5)).1.now = 15 ∧
    (run trivialGen 10 c1NumState (UntilArg.num 5)).2 = none ∧
    (15 : Int) ≠ 5 := by
  refine ⟨by decide, by decide, by decide⟩

/-- C1 amended: `run(until)` ignores a numeric `until` entirely — it behaves
exactly like `run()` for every environment, fuel and bound — and for an
Event `until` it pushes `StopSimulation.callback` onto the event's
callbacks, so that when that event is processed the raised `StopSimulation`
propagates out of `run` (it is not swallowed); the clock then equals the
event's processing time (10 in the scenario with events at 5, 10, 15). -/
theorem C1_run_until_semantics :
    (∀ (G : GenSem) (fuel : Nat) (s : SimState) (t : Int),
      run G fuel s (UntilArg.num t) = run G fuel s UntilArg.noArg) ∧
    (run trivialGen 10 c1EvState (UntilArg.ev 1)).2 =
      some (SimErr.stopSimulation (JSVal.num 42)) ∧
    (run trivialGen 10 c1EvState (UntilArg.ev 1)).1.now = 10 := by
  refine ⟨fun G fuel s t => rfl, by decide, by decide⟩

/-! C3 -/

/-- The generator of the claim's coroutine
`function* () { try { yield new Timeout(env, 100) } catch (e) { return e } }`:
from the start (point 0), `next` constructs and yields the fresh `Timeout`
and suspends at point 1 inside the `try`; `throw` at point 1 is caught and
the coroutine returns the thrown value; `next` at point 1 falls off the end
(returns `undefined`); a `throw` anywhere else escapes. -/
def c3Gen : GenSem :=
  { next := fun st _ =>
      if st = 0 then GenOut.yieldTimeout 100 JSVal.null 1
      else GenOut.retVal JSVal.undef,
    throwIn := fun st v =>
      if st = 1 then GenOut.retVal v
      else GenOut.throwOut v }

def c3Run : SimState × Option SimErr :=
  run c3Gen 10 (interrupt (newProcess (initState 0) 0).1 0 "boom") UntilArg.noArg

/-- C3 counterexample: interrupting the process immediately at construction
makes `run()` throw rather than return normally — the step that pops the
failed process event finds no resume callback registered on it and
re-raises its value, the string `"Interrupt: boom"` — and the process
outcome is a failure, not a success. -/
theorem C3_counterexample :
    c3Run.2 ≠ none ∧
    c3Run.2 = some (SimErr.thrown (JSVal.str "Interrupt: boom")) ∧
    (getEv c3Run.1 0).ok ≠ some true := by
  refine ⟨by decide, by decide, by decide⟩

/-- C3 amended: for the coroutine `try { yield Timeout(100) } catch (e)
{ return e }` whose process is interrupted with cause `"boom"` immediately
at construction, `run()` terminates by throwing the interrupt marker string
`"Interrupt: boom"` with `now = 0`, and the process outcome is a failure
whose value is that string (which contains `"boom"`); the marker is never
thrown into the coroutine — the coroutine stays suspended at its first
yield (suspension point 1) and its catch never runs. -/
theorem C3_interrupt_at_construction :
    c3Run.2 = some (SimErr.thrown (JSVal.str ("Interrupt: " ++ "boom"))) ∧
    c3Run.1.now = 0 ∧
    (getEv c3Run.1 0).ok = some false ∧
    (getEv c3Run.1 0).value = JSVal.str "Interrupt: boom" ∧
    getGen c3Run.1 0 = 1 := by
  refine ⟨by decide, by decide, by decide, by decide, by decide⟩

/-! C4 -/

def c4Pre : SimState :=
  let s2 := (newEvent (newEvent (initState 0)).1).1
  let s3 := (succeed s2 0 (JSVal.num 1)).1
  setEv s3 1 { getEv s3 1 with ok := some true, value := JSVal.num 2 }

/-- C4 counterexample: `trigger` on an already-triggered target raises no
error (`Event.trigger` performs no check and, in the model, cannot even
signal one — it returns a plain state) and overwrites the target's
outcome: after `succeed(1)`, triggering from a source carrying value `2`
changes the target's value from `1` to `2`. -/
theorem C4_counterexample :
    triggered c4Pre 0 = true ∧
    (getEv c4Pre 0).value = JSVal.num 1 ∧
    (getEv (trigger c4Pre 0 1) 0).value = JSVal.num 2 ∧
    (getEv (trigger c4Pre 0 1) 0).ok = some true := by
  refine ⟨by decide, by decide, by decide, by decide⟩

/-- C4 amended: `succeed` and `fail` take effect at most once — on a
non-Pending event they throw the already-triggered error and leave the
state unchanged — but `trigger` performs no such check: it unconditionally
copies `(ok, value)` from the source onto the target, overwriting a
previously triggered outcome (it only refrains from re-scheduling an
already-scheduled target). -/
theorem C4_at_most_once_amended :
    (∀ (s : SimState) (id : Nat) (v : JSVal), (getEv s id).value ≠ PENDING →
      succeed s id v = (s, some (SimErr.thrown (JSVal.error "has already been triggered")))) ∧
    (∀ (s : SimState) (id : Nat) (v : JSVal), (getEv s id).value ≠ PENDING →
      fail s id v = (s, some (SimErr.thrown (JSVal.error "has already been triggered")))) ∧
    (∀ (s : SimState) (t src : Nat),
      (getEv (trigger s t src) t).ok = (getEv s src).ok ∧
      (getEv (trigger s t src) t).value = (getEv s src).value) := by
  refine ⟨?_, ?_, ?_⟩
  · intro s id v h
    unfold succeed
    rw [if_pos h]
  · intro s id v h
    unfold fail
    rw [if_pos h]
  · intro s t src
    unfold trigger
    dsimp only
    split
    · constructor
      · rw [getEv_setEv_eq]
      · rw [getEv_setEv_eq]
    · constructor
      · rw [getEv_schedule]
        simp [getEv_setEv_eq]
      · rw [getEv_schedule]
        simp [getEv_setEv_eq]

theorem C4_at_most_once_amended_witness :
    (getEv c4Pre 0).value ≠ PENDING ∧
    succeed c4Pre 0 (JSVal.num 9) =
      (c4Pre, some (SimErr.thrown (JSVal.error "has already been triggered"))) :=
  ⟨by decide, C4_at_most_once_amended.1 c4Pre 0 (JSVal.num 9) (by decide)⟩

/-! C6 -/

theorem runCallbacks_notes (G : GenSem) (fuel : Nat) (evId : Nat) :
    ∀ (tags : List Nat) (s : SimState),
      runCallbacks G fuel s evId (tags.map Callback.note) =
        ({ s with trace := s.trace ++ tags }, none)
  | [], s => by
    simp [runCallbacks]
  | t :: tags, s => by
    simp only [List.map_cons]
    unfold runCallbacks runCallback
    dsimp only
    rw [runCallbacks_notes G fuel evId tags _]
    simp

/-- C6 amended: for an event whose callback list holds note-callbacks (our
model of the repository tests' plain recording callbacks), `step` pops it
and invokes each registered callback exactly once, in registration order
(the trace is extended by exactly the tags, in order); but `step` does NOT
release the callback list afterwards — the list survives unchanged and the
event still reports `processed = false`. -/
theorem C6_fan_order (G : GenSem) (fuel : Nat) (s : SimState)
    (item : QueueItem) (q : List QueueItem) (tags : List Nat)
    (hq : s.queue.length ≠ 0)
    (hpop : heapPop cmpQI s.queue = some (item, q))
    (hcbs : (getEv s item.event).callbacks = some (tags.map Callback.note)) :
    (step G fuel s).1.trace = s.trace ++ tags ∧
    (getEv (step G fuel s).1 item.event).callbacks = some (tags.map Callback.note) ∧
    processed (step G fuel s).1 item.event = false := by
  have hget : ∀ t : Int, getEv { s with queue := q, now := t } item.event = getEv s item.event :=
    fun t => rfl
  unfold step
  rw [if_neg hq, hpop]
  dsimp only
  rw [hget, hcbs]
  dsimp only
  rw [runCallbacks_notes G fuel item.event tags _]
  dsimp only
  have hget2 : getEv { s with queue := q, now := item.time, trace := s.trace ++ tags }
      item.event = getEv s item.event := rfl
  split
  · exact ⟨rfl, by rw [hget2, hcbs], by simp [processed, hget2, hcbs]⟩
  · exact ⟨rfl, by rw [hget2, hcbs], by simp [processed, hget2, hcbs]⟩

def c6Notes : List Callback := [Callback.note 10, Callback.note 20, Callback.note 30]

def c6State : SimState :=
  let s1 := (newEvent (initState 0)).1
  let s2 := setEv s1 0 { getEv s1 0 with ok := some true, callbacks := some c6Notes }
  schedule s2 0 Priority.NORMAL 5

/-- C6 counterexample: stepping a state whose due event carries three
note-callbacks fans all three in registration order (the trace becomes
`[10, 20, 30]`), but the callback list is NOT released afterwards — it is
still present, so the event reports `processed = false`, refuting the
claimed Processed sentinel. -/
theorem C6_counterexample :
    (step trivialGen 1 c6State).1.trace = [10, 20, 30] ∧
    (getEv (step trivialGen 1 c6State).1 0).callbacks ≠ none ∧
    processed (step trivialGen 1 c6State).1 0 = false := by
  refine ⟨by decide, by decide, by decide⟩

theorem C6_fan_order_witness :
    (step trivialGen 1 c6State).1.trace = c6State.trace ++ [10, 20, 30] ∧
    (getEv (step trivialGen 1 c6State).1 0).callbacks =
      some ([10, 20, 30].map Callback.note) ∧
    processed (step trivialGen 1 c6State).1 0 = false :=
  C6_fan_order trivialGen 1 c6State ⟨5, 1, 0, 0⟩ [] [10, 20, 30]
    (by decide) (by decide) (by decide)

/-! C7 -/

/-- C7 counterexample: a condition event constructed over an empty child
set does not succeed at construction time — for both `allEvents` and
`anyEvents` it still reports `triggered = false` — even though both
predicates hold of an empty set with count 0. -/
theorem C7_counterexample :
    triggered (newCondEvent (initState 0) CondEval.allEvents []).1.1
      (newCondEvent (initState 0) CondEval.allEvents []).1.2 = false ∧
    triggered (newCondEvent (initState 0) CondEval.anyEvents []).1.1
      (newCondEvent (initState 0) CondEval.anyEvents []).1.2 = false ∧
    evalCond CondEval.allEvents [] 0 = true ∧
    evalCond CondEval.anyEvents [] 0 = true := by
  refine ⟨by decide, by decide, by decide, by decide⟩

/-- C7 amended: the constructor's `events.length > 0` guard makes it skip
`_initializeCondition` entirely for an empty child set: for either
predicate, the new condition event raises no error but stays Pending
(`_value = 'PENDING'`, `_ok` undefined), is not scheduled, and has an empty
callback list — it does not succeed at construction — although both
predicates hold of zero children and count 0. -/
theorem C7_empty_condition_stays_pending :
    ∀ (s : SimState) (ev : CondEval),
      (newCondEvent s ev []).2 = none ∧
      (getEv (newCondEvent s ev []).1.1 (newCondEvent s ev []).1.2).value = PENDING ∧
      (getEv (newCondEvent s ev []).1.1 (newCondEvent s ev []).1.2).ok = none ∧
      (getEv (newCondEvent s ev []).1.1 (newCondEvent s ev []).1.2).scheduled = false ∧
      (getEv (newCondEvent s ev []).1.1 (newCondEvent s ev []).1.2).callbacks = some [] ∧
      evalCond ev [] 0 = true := by
  intro s ev
  have h1 : newCondEvent s ev [] =
      (((allocEvent s { defaultEvent with evaluate := some ev, events := [] }).1,
        s.nextEv), none) := rfl
  rw [h1, getEv_allocEvent, if_pos rfl]
  exact ⟨rfl, rfl, rfl, rfl, rfl, by cases ev <;> rfl⟩

/-! C8 -/

def c8Pre : SimState :=
  setEv (newEvent (initState 0)).1 0 { getEv (newEvent (initState 0)).1 0 with ok := some true }

/-- C8 counterexample: `Environment.schedule` accepts a negative delay
without any failure — it is a total operation that simply pushes the item —
inserting the event at time `now + delay = -5`, earlier than `now = 0`;
the following `step` then moves the clock backwards to `-5`. -/
theorem C8_counterexample :
    (schedule c8Pre 0 Priority.NORMAL (-5)).queue =
      [{ time := -5, priority := 1, eid := 0, event := 0 }] ∧
    c8Pre.now = 0 ∧
    (step trivialGen 1 (schedule c8Pre 0 Priority.NORMAL (-5))).1.now = -5 ∧
    (step trivialGen 1 (schedule c8Pre 0 Priority.NORMAL (-5))).2 = none := by
  refine ⟨by decide, by decide, by decide, by decide⟩

/-- C8 amended: `schedule` performs no delay validation: for every state,
event and delay — negative included — it pushes the item at `now + delay`
and marks the event scheduled; only the `Timeout` constructor rejects a
negative delay, by throwing. -/
theorem C8_schedule_no_validation :
    (∀ (s : SimState) (evId : Nat) (p : Priority) (d : Int),
      ({ time := s.now + d, priority := prioNum p, eid := s.eid, event := evId } : QueueItem) ∈
        (schedule s evId p d).queue ∧
      (getEv (schedule s evId p d) evId).scheduled = true) ∧
    (∀ (s : SimState) (d : Int) (v : JSVal), d < 0 →
      (newTimeout s d v).2 = some (SimErr.thrown (JSVal.error "Negative delay value"))) := by
  constructor
  · intro s evId p d
    constructor
    · rw [schedule_queue]
      exact (mem_heapPush s.queue _ _).mpr (Or.inl rfl)
    · rw [getEv_schedule]
      simp
  · intro s d v hd
    unfold newTimeout
    dsimp only
    rw [if_pos hd]

theorem C8_schedule_no_validation_witness :
    ({ time := -5, priority := 1, eid := 0, event := 0 } : QueueItem) ∈
      (schedule c8Pre 0 Priority.NORMAL (-5)).queue ∧
    (-5 : Int) < 0 ∧
    (newTimeout c8Pre (-5) JSVal.null).2 =
      some (SimErr.thrown (JSVal.error "Negative delay value")) :=
  ⟨(C8_schedule_no_validation.1 c8Pre 0 Priority.NORMAL (-5)).1, by decide,
    C8_schedule_no_validation.2 c8Pre (-5) JSVal.null (by decide)⟩

end SimJS
